import Mathlib

/-!
# Timer wheel (`SafeTimer`, src/timer.h)

A shallow embedding of the second-granularity timer of `src/timer.h`.

Modelling conventions.

* `time_t` is a signed 64-bit integer (LP64): expiries are `Int` (the code does
  no arithmetic on them, it only compares them, and the comparison with the
  `uint32_t` member `curTm` is made in the signed 64-bit type).
* The members `curTm`, `secStep` and the function-local `static uint32_t secStep`
  of `fixCurBucket` are `uint32_t`: they are `Nat`, and every store into them is
  reduced `% 2^32`.
* A bucket chain (the circular intrusive list hanging off `timerHead[i]`) is the
  `List` of its events from the first node after the sentinel to the last.
  `curBucket`, a pointer to one of the 60 sentinels, is the index of that slot.
* A callback is a function pointer; it is identified by a value of an arbitrary
  type `Func`, and the null pointer is `none`.  A callback is an external effect:
  `checkEvent` returns, next to the new state, the calls it made, in order (a
  `Call` records the function, the two arguments and the node the call was made
  for).  Callbacks are assumed not to call back into the timer.
* The recursive mutex `m_mutex` is the number of times the calling thread holds
  it.  The operations are atomic steps of one sequential run.
* The wall clock read by `gettimeofday` is an argument `tv_sec : Nat` of the
  operations that read it.
-/

namespace Timer

/-- The number of buckets of the wheel: `#define TotalBucket 60`. -/
abbrev TotalBucket : Nat := 60

/-- The range of `uint32_t`. -/
abbrev UINT32 : Nat := 2 ^ 32

/-- The record `SafeTimer::timerEvent` without its list node: the callback (a
function pointer, `none` when null), the expiry timestamp, and the two values
passed to the callback. -/
structure timerEvent (Func Owner Arg : Type) where
  func : Option Func
  expireTime : Int
  owner : Owner
  arg : Arg
deriving DecidableEq, Repr

/-- The members of `SafeTimer` together with the function-local
`static uint32_t secStep` of `fixCurBucket` (field `fixSecStep`), which lives as
long as the program and is zero when the program starts. -/
structure SafeTimer (Func Owner Arg : Type) where
  timerHead : Fin TotalBucket → List (timerEvent Func Owner Arg)
  curBucket : Fin TotalBucket
  m_mutex : Nat
  curTm : Nat
  secStep : Nat
  fixSecStep : Nat

variable {Func Owner Arg : Type}

/-- The slot `&timerHead[n % TotalBucket]`. -/
def bucketOf (n : Nat) : Fin TotalBucket := ⟨n % TotalBucket, Nat.mod_lt n (by decide)⟩

/-- Modelled from the spec: `INIT_LIST_HEAD` of the absent `intrusiveList.h`;
it resets a sentinel to the empty chain. -/
def INIT_LIST_HEAD {α : Type} : List α := []

/-- Modelled from the spec: `list_add_tail(new, pos)` of the absent
`intrusiveList.h`, which links `new` immediately before `pos`.  `pos = some i`
is the node at index `i` of the chain (insert before that node); `pos = none`
is the sentinel of the bucket (append to the tail). -/
def list_add_tail {α : Type} (new : α) (pos : Option Nat) (chain : List α) : List α :=
  match pos with
  | some i => chain.take i ++ new :: chain.drop i
  | none => chain ++ [new]

/-- Modelled from the spec: `list_del_init(node)` of the absent
`intrusiveList.h`, which unlinks the node at index `i` and relinks its
neighbours. -/
def list_del_init {α : Type} (i : Nat) (chain : List α) : List α := chain.eraseIdx i

/-- `LOCK`: `pthread_mutex_lock(&m_mutex)` on the recursive mutex. -/
def LOCK (s : SafeTimer Func Owner Arg) : SafeTimer Func Owner Arg :=
  { s with m_mutex := s.m_mutex + 1 }

/-- `UNLOCK`: `pthread_mutex_unlock(&m_mutex)`. -/
def UNLOCK (s : SafeTimer Func Owner Arg) : SafeTimer Func Owner Arg :=
  { s with m_mutex := s.m_mutex - 1 }

/-- `SafeTimer::initCurBucket`: every bucket is reset to the empty chain, the
member `secStep` takes the wall-clock second (stored in a `uint32_t`) and the
cursor is set to `&timerHead[secStep % TotalBucket]`.  `curTm` is not written. -/
def initCurBucket (s : SafeTimer Func Owner Arg) (tv_sec : Nat) : SafeTimer Func Owner Arg :=
  { s with
    timerHead := fun _ => INIT_LIST_HEAD
    secStep := tv_sec % UINT32
    curBucket := bucketOf (tv_sec % UINT32) }

/-- `SafeTimer::init`: `initCurBucket`, then the creation of the sweeper thread
and of the recursive mutex; the four arguments are the return codes of
`pthread_create`, `pthread_mutexattr_init`, `pthread_mutexattr_settype` and
`pthread_mutex_init`. -/
def init (s : SafeTimer Func Owner Arg) (tv_sec : Nat) (rcCreate rcAttr rcType rcMutex : Int) :
    SafeTimer Func Owner Arg × Int :=
  let s1 := initCurBucket s tv_sec
  if rcCreate ≠ 0 then (s1, -1)
  else if rcAttr ≠ 0 then (s1, -1)
  else if rcType ≠ 0 then (s1, -1)
  else if rcMutex ≠ 0 then (s1, -1)
  else ({ s1 with m_mutex := 0 }, 0)

/-- The scan of `addEvent`: `list_for_each_safe(pos, next, curBucket)` looking
for the first node whose expiry is greater than the new one; the result is the
index of that node, counted from `i`, or `none` when the loop runs to the end. -/
def addEventScan (expireTime : Int) : List (timerEvent Func Owner Arg) → Nat → Option Nat
  | [], _ => none
  | e :: rest, i => if e.expireTime > expireTime then some i else addEventScan expireTime rest (i + 1)

/-- `SafeTimer::addEvent`.  `allocOk = false` is the case `!event` after
`new timerEvent`.  The new event is linked into the chain of `curBucket`:
before the first node with a greater expiry, or at the tail. -/
def addEvent (s : SafeTimer Func Owner Arg) (allocOk : Bool) (func : Option Func)
    (expireTime : Int) (owner : Owner) (arg : Arg) : SafeTimer Func Owner Arg × Int :=
  let s1 := LOCK s
  if !allocOk then (s1, -1)
  else
    let event : timerEvent Func Owner Arg :=
      { func := func, expireTime := expireTime, owner := owner, arg := arg }
    let chain := s1.timerHead s1.curBucket
    match addEventScan expireTime chain 0 with
    | some pos =>
      (UNLOCK { s1 with
        timerHead := Function.update s1.timerHead s1.curBucket
          (list_add_tail event (some pos) chain) }, 0)
    | none =>
      (UNLOCK { s1 with
        timerHead := Function.update s1.timerHead s1.curBucket
          (list_add_tail event none chain) }, 0)

/-- `SafeTimer::delEvent` on the chain that holds the event: `event = none` is
the null pointer, `event = some i` the node at index `i`. -/
def delEvent (chain : List (timerEvent Func Owner Arg)) (event : Option Nat) :
    List (timerEvent Func Owner Arg) × Int :=
  match event with
  | none => (chain, -1)
  | some i => (list_del_init i chain, 0)

/-- One invocation of a callback: the call `func(owner, arg)`, with the node
`event` it was made for. -/
structure Call (Func Owner Arg : Type) where
  func : Func
  owner : Owner
  arg : Arg
  event : timerEvent Func Owner Arg
deriving DecidableEq, Repr

/-- The statement `if (likely(e->func)) e->func(e->owner, e->arg);`: the calls
it makes. -/
def invoke (e : timerEvent Func Owner Arg) : List (Call Func Owner Arg) :=
  match e.func with
  | some f => [{ func := f, owner := e.owner, arg := e.arg, event := e }]
  | none => []

/-- The loop of `checkEvent`: `list_for_each_safe(pos, next, curBucket)`.  `pos`
is always the first node of what is left of the chain, because every node before
it has been unlinked by `delEvent`; after `delEvent(e)` the chain is `rest`.
The result is the chain left in the bucket and the calls made, in order. -/
def checkEventLoop (curTm : Nat) :
    List (timerEvent Func Owner Arg) →
      List (timerEvent Func Owner Arg) × List (Call Func Owner Arg)
  | [] => ([], [])
  | e :: rest =>
    if e.expireTime > (curTm : Int) then (e :: rest, [])
    else
      let r := checkEventLoop curTm rest
      (r.1, invoke e ++ r.2)

/-- `SafeTimer::checkEvent`: the new state, the return value and the calls
made, in order. -/
def checkEvent (s : SafeTimer Func Owner Arg) :
    SafeTimer Func Owner Arg × Int × List (Call Func Owner Arg) :=
  let s1 := LOCK s
  let r := checkEventLoop s1.curTm (s1.timerHead s1.curBucket)
  (UNLOCK { s1 with timerHead := Function.update s1.timerHead s1.curBucket r.1 }, 0, r.2)

/-- `SafeTimer::fixCurBucket`: `curTm` takes the wall-clock second; when it is
greater than the function-local static `secStep`, that static is incremented and
the cursor is set to `&timerHead[secStep % TotalBucket]` for the static. -/
def fixCurBucket (s : SafeTimer Func Owner Arg) (tv_sec : Nat) : SafeTimer Func Owner Arg :=
  let s1 := { s with curTm := tv_sec % UINT32 }
  let s2 := LOCK s1
  let s3 :=
    if s2.curTm > s2.fixSecStep then
      { s2 with
        fixSecStep := (s2.fixSecStep + 1) % UINT32
        curBucket := bucketOf ((s2.fixSecStep + 1) % UINT32) }
    else s2
  UNLOCK s3

/-- The loop of `unInit` over one bucket: `list_for_each_safe` with `delEvent`
on every node and no callback.  The result is the chain left and the calls
made (none). -/
def unInitLoop :
    List (timerEvent Func Owner Arg) →
      List (timerEvent Func Owner Arg) × List (Call Func Owner Arg)
  | [] => ([], [])
  | _ :: rest => unInitLoop rest

/-- `SafeTimer::unInit`: under the lock, for every slot in turn the cursor is
set to it, every node is deleted and the sentinel is reset; the cursor is left
on the last slot; the mutex is released and destroyed.  The result is the new
state, the return value and the calls made. -/
def unInit (s : SafeTimer Func Owner Arg) :
    SafeTimer Func Owner Arg × Int × List (Call Func Owner Arg) :=
  let s1 := LOCK s
  let s2 := { s1 with
    timerHead := fun _ => INIT_LIST_HEAD
    curBucket := bucketOf (TotalBucket - 1) }
  (UNLOCK s2, 0, (List.finRange TotalBucket).flatMap (fun i => (unInitLoop (s1.timerHead i)).2))

/-- One round of `SafeTimer::timerLoopProc` after the sleep: `checkEvent`, then
`fixCurBucket` with the wall-clock second it reads. -/
def tick (s : SafeTimer Func Owner Arg) (tv_sec : Nat) :
    SafeTimer Func Owner Arg × List (Call Func Owner Arg) :=
  let r := checkEvent s
  (fixCurBucket r.1 tv_sec, r.2.2)

/-- The states the wheel can be in: after a successful `init`, and after any
sequence of `addEvent`, `checkEvent` and `fixCurBucket` calls from there. -/
inductive Reachable : SafeTimer Func Owner Arg → Prop
  | init (s : SafeTimer Func Owner Arg) (tv_sec : Nat) : Reachable (init s tv_sec 0 0 0 0).1
  | addEvent {s : SafeTimer Func Owner Arg} (allocOk : Bool) (func : Option Func)
      (expireTime : Int) (owner : Owner) (arg : Arg) :
      Reachable s → Reachable (addEvent s allocOk func expireTime owner arg).1
  | checkEvent {s : SafeTimer Func Owner Arg} : Reachable s → Reachable (checkEvent s).1
  | fixCurBucket {s : SafeTimer Func Owner Arg} (tv_sec : Nat) :
      Reachable s → Reachable (fixCurBucket s tv_sec)

/-- The global object `timer` of `src/test.cpp` when the program starts: static
storage is zero-initialised, so every counter is 0, and so is the function-local
static of `fixCurBucket`.  The buckets and the cursor are not meaningful before
`init`, which overwrites them. -/
def progStart : SafeTimer Nat Nat Nat :=
  { timerHead := fun _ => []
    curBucket := bucketOf 0
    m_mutex := 0
    curTm := 0
    secStep := 0
    fixSecStep := 0 }

/-- The event record that `addEvent` fills in. -/
def mkEvent (func : Option Func) (expireTime : Int) (owner : Owner) (arg : Arg) :
    timerEvent Func Owner Arg :=
  { func := func, expireTime := expireTime, owner := owner, arg := arg }

/-- The chain is in ascending order of expiry. -/
def ChainSorted (chain : List (timerEvent Func Owner Arg)) : Prop :=
  chain.Pairwise (fun a b => a.expireTime ≤ b.expireTime)

/-- Every bucket chain of the state is in ascending order of expiry. -/
def AllSorted (s : SafeTimer Func Owner Arg) : Prop := ∀ i, ChainSorted (s.timerHead i)

/-- The chain with `ev` linked before the first node of greater expiry (at the
tail when there is none): what `addEvent` makes of the cursor chain. -/
def linkSorted (ev : timerEvent Func Owner Arg) :
    List (timerEvent Func Owner Arg) → List (timerEvent Func Owner Arg)
  | [] => [ev]
  | e :: rest => if e.expireTime > ev.expireTime then ev :: e :: rest else e :: linkSorted ev rest

/-- The leading part of a chain that `checkEvent` processes at time `t`. -/
def dueRun (t : Nat) (chain : List (timerEvent Func Owner Arg)) : List (timerEvent Func Owner Arg) :=
  chain.takeWhile (fun e => decide (e.expireTime ≤ (t : Int)))

/-- Successful `addEvent` calls, one for each event of the list, in order of the
list. -/
def scheduleAll (s : SafeTimer Func Owner Arg) (evs : List (timerEvent Func Owner Arg)) :
    SafeTimer Func Owner Arg :=
  evs.foldl (fun st e => (addEvent st true e.func e.expireTime e.owner e.arg).1) s

/-- The state after `n` rounds of the sweeper loop, round `i` reading the
wall-clock second `w i`, and all the calls made, in order. -/
def runTicks (w : Nat → Nat) : Nat → SafeTimer Func Owner Arg →
    SafeTimer Func Owner Arg × List (Call Func Owner Arg)
  | 0, s => (s, [])
  | n + 1, s =>
    let r := runTicks w n s
    let t := tick r.1 (w n)
    (t.1, r.2 ++ t.2)

/-- One call of a public operation of the wheel, with the values it receives
from outside (arguments, wall clock, return codes of the thread library). -/
inductive Op (Func Owner Arg : Type) where
  | init (tv_sec : Nat) (rcCreate rcAttr rcType rcMutex : Int)
  | unInit
  | addEvent (allocOk : Bool) (func : Option Func) (expireTime : Int) (owner : Owner) (arg : Arg)
  | checkEvent
  | fixCurBucket (tv_sec : Nat)

/-- The state after one operation and the calls the operation made. -/
def step (s : SafeTimer Func Owner Arg) :
    Op Func Owner Arg → SafeTimer Func Owner Arg × List (Call Func Owner Arg)
  | Op.init T a b c d => ((init s T a b c d).1, [])
  | Op.unInit => ((unInit s).1, (unInit s).2.2)
  | Op.addEvent ok func E owner arg => ((addEvent s ok func E owner arg).1, [])
  | Op.checkEvent => ((checkEvent s).1, (checkEvent s).2.2)
  | Op.fixCurBucket w => (fixCurBucket s w, [])

/-- The state after a sequence of operations and all the calls made, in order. -/
def runOps (s : SafeTimer Func Owner Arg) :
    List (Op Func Owner Arg) → SafeTimer Func Owner Arg × List (Call Func Owner Arg)
  | [] => (s, [])
  | op :: rest =>
    let r := step s op
    let r2 := runOps r.1 rest
    (r2.1, r.2 ++ r2.2)

/-- The events created by the successful `addEvent` calls of a sequence of
operations. -/
def created : List (Op Func Owner Arg) → List (timerEvent Func Owner Arg)
  | [] => []
  | Op.addEvent true func E owner arg :: rest => mkEvent func E owner arg :: created rest
  | _ :: rest => created rest

/-- The number of `fixCurBucket` calls in a sequence of operations. -/
def fixCalls : List (Op Func Owner Arg) → Nat
  | [] => 0
  | Op.fixCurBucket _ :: rest => fixCalls rest + 1
  | _ :: rest => fixCalls rest

/-- Every `fixCurBucket` call of the sequence reads a wall-clock second that is
below `2^32` and greater than the number of the call, the calls being numbered
from `k + 1`. -/
def FixOk (k : Nat) : List (Op Func Owner Arg) → Prop
  | [] => True
  | Op.fixCurBucket w :: rest => (k + 1 < w ∧ w < UINT32) ∧ FixOk (k + 1) rest
  | _ :: rest => FixOk k rest

/-- The events pending in a bucket array, as a multiset. -/
@[irreducible] def pendingOf (th : Fin TotalBucket → List (timerEvent Func Owner Arg)) :
    Multiset (timerEvent Func Owner Arg) :=
  ∑ i : Fin TotalBucket, ((th i : List (timerEvent Func Owner Arg)) : Multiset _)

/-- The events pending in the wheel. -/
def pending (s : SafeTimer Func Owner Arg) : Multiset (timerEvent Func Owner Arg) :=
  pendingOf s.timerHead

/-- The operations before the sweeper is delayed, on the global object from
program start: `init` at second 100; one round of the sweeper with the wall
clock at 100; `addEvent` with expiry 103; a second round with the wall clock at
100; `addEvent` with expiry 102. -/
def catchUpSetup : List (Op Nat Nat Nat) :=
  [Op.init 100 0 0 0 0, Op.checkEvent, Op.fixCurBucket 100,
   Op.addEvent true (some 1) 103 7 0, Op.checkEvent, Op.fixCurBucket 100,
   Op.addEvent true (some 1) 102 8 0]

/-- The wall clock read by round `i` of the sweeper after a delay of 5 seconds
from second 100: it reads 105 when ticking resumes and advances by one second
every five rounds. -/
def catchUpClock (i : Nat) : Nat := 105 + i / 5

/-! ## Lemmas on the operations -/

section Lemmas

theorem addEventScan_shift (E : Int) (chain : List (timerEvent Func Owner Arg)) (i : Nat) :
    addEventScan E chain i = (addEventScan E chain 0).map (fun k => k + i) := by
  induction chain generalizing i with
  | nil => simp [addEventScan]
  | cons e rest ih =>
    simp only [addEventScan]
    split
    · simp
    · rw [ih (i + 1), ih (0 + 1)]
      simp [Option.map_map, Function.comp_def, Nat.add_comm, Nat.add_left_comm]

/-- The chain that `addEvent` leaves in the cursor bucket: the nodes up to the
first one with a greater expiry, the new event, the other nodes. -/
theorem list_add_tail_scan (ev : timerEvent Func Owner Arg)
    (chain : List (timerEvent Func Owner Arg)) :
    list_add_tail ev (addEventScan ev.expireTime chain 0) chain
      = chain.takeWhile (fun e => decide (e.expireTime ≤ ev.expireTime))
        ++ ev :: chain.dropWhile (fun e => decide (e.expireTime ≤ ev.expireTime)) := by
  induction chain with
  | nil => simp [addEventScan, list_add_tail]
  | cons e rest ih =>
    simp only [addEventScan]
    by_cases h : e.expireTime > ev.expireTime
    · have h2 : ¬ e.expireTime ≤ ev.expireTime := not_le.mpr h
      simp [h, h2, list_add_tail, List.takeWhile, List.dropWhile]
    · have h2 : e.expireTime ≤ ev.expireTime := not_lt.mp h
      rw [if_neg h, addEventScan_shift]
      simp only [List.takeWhile, List.dropWhile, h2, decide_True]
      rw [List.cons_append, ← ih]
      cases hs : addEventScan ev.expireTime rest 0 with
      | none => simp [list_add_tail]
      | some k => simp [list_add_tail]

theorem addEvent_fst (s : SafeTimer Func Owner Arg) (func : Option Func) (E : Int)
    (owner : Owner) (arg : Arg) :
    (addEvent s true func E owner arg).1 =
      { s with
        timerHead := Function.update s.timerHead s.curBucket
          (let chain := s.timerHead s.curBucket
           chain.takeWhile (fun e => decide (e.expireTime ≤ E))
            ++ mkEvent func E owner arg :: chain.dropWhile (fun e => decide (e.expireTime ≤ E))) } := by
  have h := list_add_tail_scan (mkEvent func E owner arg) (s.timerHead s.curBucket)
  simp only [mkEvent] at h
  unfold addEvent
  simp only [LOCK, UNLOCK, Bool.not_true, Bool.false_eq_true, if_false, mkEvent]
  cases hs : addEventScan E (s.timerHead s.curBucket) 0 with
  | none => rw [hs] at h; simp [h]
  | some k => rw [hs] at h; simp [h]

theorem addEvent_snd (s : SafeTimer Func Owner Arg) (func : Option Func) (E : Int)
    (owner : Owner) (arg : Arg) : (addEvent s true func E owner arg).2 = 0 := by
  unfold addEvent
  simp only [Bool.not_true, Bool.false_eq_true, if_false]
  split <;> rfl

theorem addEvent_fail (s : SafeTimer Func Owner Arg) (func : Option Func) (E : Int)
    (owner : Owner) (arg : Arg) : addEvent s false func E owner arg = (LOCK s, -1) := by
  simp [addEvent]

/-- `delEvent` on the first node of a chain succeeds and leaves the other nodes:
the chain on which the loop of `checkEvent` goes on. -/
theorem delEvent_first (e : timerEvent Func Owner Arg) (rest : List (timerEvent Func Owner Arg)) :
    delEvent (e :: rest) (some 0) = (rest, 0) := rfl

theorem checkEventLoop_fst (t : Nat) (chain : List (timerEvent Func Owner Arg)) :
    (checkEventLoop t chain).1 = chain.dropWhile (fun e => decide (e.expireTime ≤ (t : Int))) := by
  induction chain with
  | nil => simp [checkEventLoop]
  | cons e rest ih =>
    simp only [checkEventLoop]
    by_cases h : e.expireTime > (t : Int)
    · simp [h, List.dropWhile, not_le.mpr h]
    · simp [h, List.dropWhile, not_lt.mp h, ih]

theorem checkEventLoop_snd (t : Nat) (chain : List (timerEvent Func Owner Arg)) :
    (checkEventLoop t chain).2
      = (chain.takeWhile (fun e => decide (e.expireTime ≤ (t : Int)))).flatMap invoke := by
  induction chain with
  | nil => simp [checkEventLoop]
  | cons e rest ih =>
    simp only [checkEventLoop]
    by_cases h : e.expireTime > (t : Int)
    · simp [h, List.takeWhile, not_le.mpr h]
    · simp [h, List.takeWhile, not_lt.mp h, ih]

theorem checkEvent_fst (s : SafeTimer Func Owner Arg) :
    (checkEvent s).1 =
      { s with
        timerHead := Function.update s.timerHead s.curBucket
          ((s.timerHead s.curBucket).dropWhile (fun e => decide (e.expireTime ≤ (s.curTm : Int)))) } := by
  simp [checkEvent, LOCK, UNLOCK, checkEventLoop_fst]

theorem checkEvent_calls (s : SafeTimer Func Owner Arg) :
    (checkEvent s).2.2 =
      ((s.timerHead s.curBucket).takeWhile
        (fun e => decide (e.expireTime ≤ (s.curTm : Int)))).flatMap invoke := by
  simp [checkEvent, LOCK, checkEventLoop_snd]

theorem fixCurBucket_timerHead (s : SafeTimer Func Owner Arg) (w : Nat) :
    (fixCurBucket s w).timerHead = s.timerHead := by
  unfold fixCurBucket
  simp only [LOCK, UNLOCK]
  split <;> rfl

/-- The events of the calls made for a chain: the events that have a callback. -/
theorem map_event_flatMap_invoke (l : List (timerEvent Func Owner Arg)) :
    (l.flatMap invoke).map Call.event = l.filter (fun e => e.func.isSome) := by
  induction l with
  | nil => rfl
  | cons e rest ih =>
    cases hf : e.func with
    | none => simp [List.flatMap_cons, invoke, hf, List.filter, ih]
    | some f => simp [List.flatMap_cons, invoke, hf, List.filter, ih]

theorem mem_takeWhile_le (E : Int) (chain : List (timerEvent Func Owner Arg))
    (a : timerEvent Func Owner Arg)
    (ha : a ∈ chain.takeWhile (fun e => decide (e.expireTime ≤ E))) : a.expireTime ≤ E := by
  have h := List.mem_takeWhile_imp ha
  simpa using h

/-- In a sorted chain, everything from the first node with a greater expiry on
has a greater expiry. -/
theorem mem_dropWhile_gt (E : Int) (chain : List (timerEvent Func Owner Arg))
    (hs : ChainSorted chain) (b : timerEvent Func Owner Arg)
    (hb : b ∈ chain.dropWhile (fun e => decide (e.expireTime ≤ E))) : E < b.expireTime := by
  induction chain with
  | nil => simp at hb
  | cons e rest ih =>
    have hs2 : ChainSorted rest := (List.pairwise_cons.mp hs).2
    by_cases h : e.expireTime ≤ E
    · simp only [List.dropWhile, h, decide_True] at hb
      exact ih hs2 hb
    · simp only [List.dropWhile, h, decide_False] at hb
      rcases List.mem_cons.mp hb with rfl | hmem
      · exact not_le.mp h
      · exact lt_of_lt_of_le (not_le.mp h) ((List.pairwise_cons.mp hs).1 b hmem)

theorem chainSorted_insert (ev : timerEvent Func Owner Arg)
    (chain : List (timerEvent Func Owner Arg)) (hs : ChainSorted chain) :
    ChainSorted (chain.takeWhile (fun e => decide (e.expireTime ≤ ev.expireTime))
      ++ ev :: chain.dropWhile (fun e => decide (e.expireTime ≤ ev.expireTime))) := by
  unfold ChainSorted
  rw [List.pairwise_append]
  refine ⟨hs.sublist (List.takeWhile_sublist _), ?_, ?_⟩
  · rw [List.pairwise_cons]
    exact ⟨fun b hb => le_of_lt (mem_dropWhile_gt _ chain hs b hb),
      hs.sublist (List.dropWhile_sublist _)⟩
  · intro a ha b hb
    have h1 := mem_takeWhile_le _ chain a ha
    rcases List.mem_cons.mp hb with rfl | hmem
    · exact h1
    · exact le_trans h1 (le_of_lt (mem_dropWhile_gt _ chain hs b hmem))

theorem chainSorted_dropWhile (p : timerEvent Func Owner Arg → Bool)
    (chain : List (timerEvent Func Owner Arg)) (hs : ChainSorted chain) :
    ChainSorted (chain.dropWhile p) :=
  hs.sublist (List.dropWhile_sublist _)

theorem init_fst (s : SafeTimer Func Owner Arg) (T : Nat) :
    (init s T 0 0 0 0).1 = { initCurBucket s T with m_mutex := 0 } := by
  simp [init]

theorem allSorted_addEvent (s : SafeTimer Func Owner Arg) (hs : AllSorted s) (allocOk : Bool)
    (func : Option Func) (E : Int) (owner : Owner) (arg : Arg) :
    AllSorted (addEvent s allocOk func E owner arg).1 := by
  cases allocOk with
  | false => rw [addEvent_fail]; exact hs
  | true =>
    rw [addEvent_fst]
    intro i
    by_cases hi : i = s.curBucket
    · subst hi
      simp only [Function.update_same]
      exact chainSorted_insert (mkEvent func E owner arg) _ (hs _)
    · simp only [Function.update_noteq hi]
      exact hs i

theorem allSorted_checkEvent (s : SafeTimer Func Owner Arg) (hs : AllSorted s) :
    AllSorted (checkEvent s).1 := by
  rw [checkEvent_fst]
  intro i
  by_cases hi : i = s.curBucket
  · subst hi
    simp only [Function.update_same]
    exact chainSorted_dropWhile _ _ (hs _)
  · simp only [Function.update_noteq hi]
    exact hs i

theorem reachable_allSorted {s : SafeTimer Func Owner Arg} (h : Reachable s) : AllSorted s := by
  induction h with
  | init s T =>
    rw [init_fst]
    intro i
    simp [initCurBucket, INIT_LIST_HEAD, ChainSorted]
  | addEvent allocOk func E owner arg _ ih => exact allSorted_addEvent _ ih _ _ _ _ _
  | checkEvent _ ih => exact allSorted_checkEvent _ ih
  | fixCurBucket w _ ih =>
    intro i
    rw [fixCurBucket_timerHead]
    exact ih i

theorem linkSorted_eq (ev : timerEvent Func Owner Arg) (chain : List (timerEvent Func Owner Arg)) :
    chain.takeWhile (fun e => decide (e.expireTime ≤ ev.expireTime))
      ++ ev :: chain.dropWhile (fun e => decide (e.expireTime ≤ ev.expireTime))
      = linkSorted ev chain := by
  induction chain with
  | nil => simp [linkSorted]
  | cons e rest ih =>
    by_cases h : e.expireTime > ev.expireTime
    · simp [linkSorted, h, List.takeWhile, List.dropWhile, not_le.mpr h]
    · simp [linkSorted, h, List.takeWhile, List.dropWhile, not_lt.mp h, ih]

/-- The state after a successful `addEvent`, in terms of `linkSorted`. -/
theorem addEvent_link (s : SafeTimer Func Owner Arg) (func : Option Func) (E : Int)
    (owner : Owner) (arg : Arg) :
    (addEvent s true func E owner arg).1 =
      { s with
        timerHead := Function.update s.timerHead s.curBucket
          (linkSorted (mkEvent func E owner arg) (s.timerHead s.curBucket)) } := by
  rw [addEvent_fst]
  have h := linkSorted_eq (mkEvent func E owner arg) (s.timerHead s.curBucket)
  simp only [mkEvent] at h ⊢
  rw [h]

theorem linkSorted_perm (ev : timerEvent Func Owner Arg) (chain : List (timerEvent Func Owner Arg)) :
    (linkSorted ev chain).Perm (ev :: chain) := by
  induction chain with
  | nil => simp [linkSorted]
  | cons e rest ih =>
    simp only [linkSorted]
    split
    · exact List.Perm.refl _
    · exact (List.Perm.cons e ih).trans (List.Perm.swap ev e rest)

theorem chainSorted_linkSorted (ev : timerEvent Func Owner Arg)
    (chain : List (timerEvent Func Owner Arg)) (hs : ChainSorted chain) :
    ChainSorted (linkSorted ev chain) := by
  rw [← linkSorted_eq]
  exact chainSorted_insert ev chain hs

/-- The new event is processed by `checkEvent` when its expiry is at most `t`:
everything linked before it has an expiry that is not greater. -/
theorem mem_dueRun_linkSorted_self (t : Nat) (ev : timerEvent Func Owner Arg)
    (chain : List (timerEvent Func Owner Arg)) (h : ev.expireTime ≤ (t : Int)) :
    ev ∈ dueRun t (linkSorted ev chain) := by
  induction chain with
  | nil => simp [linkSorted, dueRun, List.takeWhile, h]
  | cons e rest ih =>
    simp only [linkSorted]
    split
    · simp [dueRun, List.takeWhile, h]
    · next hgt =>
      have he : e.expireTime ≤ (t : Int) := le_trans (not_lt.mp hgt) h
      simp only [dueRun, List.takeWhile, he, decide_True, List.mem_cons]
      exact Or.inr ih

/-- Linking another event leaves an event of the due run in the due run. -/
theorem mem_dueRun_linkSorted (t : Nat) (e ev : timerEvent Func Owner Arg)
    (chain : List (timerEvent Func Owner Arg)) (h : e ∈ dueRun t chain) :
    e ∈ dueRun t (linkSorted ev chain) := by
  induction chain with
  | nil => simp [dueRun] at h
  | cons x rest ih =>
    by_cases hx : x.expireTime ≤ (t : Int)
    · simp only [dueRun, List.takeWhile, hx, decide_True, List.mem_cons] at h
      simp only [linkSorted]
      split
      · next hgt =>
        have hev : ev.expireTime ≤ (t : Int) := le_trans (le_of_lt hgt) hx
        simp only [dueRun, List.takeWhile, hev, hx, decide_True, List.mem_cons]
        exact Or.inr h
      · simp only [dueRun, List.takeWhile, hx, decide_True, List.mem_cons]
        rcases h with h | h
        · exact Or.inl h
        · exact Or.inr (ih h)
    · simp [dueRun, List.takeWhile, hx] at h

theorem mem_dueRun_le (t : Nat) (chain : List (timerEvent Func Owner Arg))
    (e : timerEvent Func Owner Arg) (h : e ∈ dueRun t chain) : e.expireTime ≤ (t : Int) :=
  mem_takeWhile_le _ chain e h

/-- An event of the chain that is not yet due stays in the bucket. -/
theorem mem_dropWhile_of_not_due (t : Nat) (chain : List (timerEvent Func Owner Arg))
    (e : timerEvent Func Owner Arg) (hmem : e ∈ chain) (h : (t : Int) < e.expireTime) :
    e ∈ chain.dropWhile (fun e => decide (e.expireTime ≤ (t : Int))) := by
  have hsplit := List.takeWhile_append_dropWhile
    (fun e : timerEvent Func Owner Arg => decide (e.expireTime ≤ (t : Int))) chain
  rw [← hsplit] at hmem
  rcases List.mem_append.mp hmem with h1 | h1
  · exact absurd (mem_takeWhile_le _ chain e h1) (not_le.mpr h)
  · exact h1

/-- The call made for an event that has a callback. -/
theorem mem_invoke (e : timerEvent Func Owner Arg) (f : Func) (hf : e.func = some f) :
    ({ func := f, owner := e.owner, arg := e.arg, event := e } : Call Func Owner Arg) ∈ invoke e := by
  simp [invoke, hf]

theorem event_of_mem_invoke (e : timerEvent Func Owner Arg) (c : Call Func Owner Arg)
    (h : c ∈ invoke e) : c.event = e := by
  unfold invoke at h
  split at h
  · simp only [List.mem_singleton] at h
    subst h
    rfl
  · simp at h

/-- Every call of `checkEvent` is for an event whose expiry is at most `curTm`. -/
theorem checkEvent_call_due (s : SafeTimer Func Owner Arg) (c : Call Func Owner Arg)
    (hc : c ∈ (checkEvent s).2.2) : c.event.expireTime ≤ (s.curTm : Int) := by
  rw [checkEvent_calls] at hc
  obtain ⟨e, he, hce⟩ := List.mem_flatMap.mp hc
  rw [event_of_mem_invoke e c hce]
  exact mem_takeWhile_le _ _ e he

theorem invoke_fields (e : timerEvent Func Owner Arg) (c : Call Func Owner Arg)
    (h : c ∈ invoke e) :
    c.event.func = some c.func ∧ c.owner = c.event.owner ∧ c.arg = c.event.arg := by
  unfold invoke at h
  split at h
  · next f hf =>
    simp only [List.mem_singleton] at h
    subst h
    exact ⟨hf, rfl, rfl⟩
  · simp at h

theorem flatMap_invoke_fields (l : List (timerEvent Func Owner Arg)) (c : Call Func Owner Arg)
    (h : c ∈ l.flatMap invoke) :
    c.event.func = some c.func ∧ c.owner = c.event.owner ∧ c.arg = c.event.arg := by
  obtain ⟨e, _, hce⟩ := List.mem_flatMap.mp h
  exact invoke_fields e c hce

theorem addEvent_curTm (s : SafeTimer Func Owner Arg) (func : Option Func) (E : Int)
    (owner : Owner) (arg : Arg) : (addEvent s true func E owner arg).1.curTm = s.curTm := by
  rw [addEvent_link]

theorem addEvent_curBucket (s : SafeTimer Func Owner Arg) (func : Option Func) (E : Int)
    (owner : Owner) (arg : Arg) : (addEvent s true func E owner arg).1.curBucket = s.curBucket := by
  rw [addEvent_link]

theorem addEvent_chain (s : SafeTimer Func Owner Arg) (func : Option Func) (E : Int)
    (owner : Owner) (arg : Arg) :
    (addEvent s true func E owner arg).1.timerHead s.curBucket
      = linkSorted (mkEvent func E owner arg) (s.timerHead s.curBucket) := by
  rw [addEvent_link]
  simp only [Function.update_same]

theorem checkEvent_chain (s : SafeTimer Func Owner Arg) :
    (checkEvent s).1.timerHead s.curBucket
      = (s.timerHead s.curBucket).dropWhile (fun e => decide (e.expireTime ≤ (s.curTm : Int))) := by
  rw [checkEvent_fst]
  simp only [Function.update_same]

theorem checkEvent_calls_run (s : SafeTimer Func Owner Arg) :
    (checkEvent s).2.2 = (dueRun s.curTm (s.timerHead s.curBucket)).flatMap invoke :=
  checkEvent_calls s

/-- The state after a list of successful `addEvent` calls. -/
theorem scheduleAll_eq (s : SafeTimer Func Owner Arg) (evs : List (timerEvent Func Owner Arg)) :
    scheduleAll s evs =
      { s with
        timerHead := Function.update s.timerHead s.curBucket
          (evs.foldl (fun c e => linkSorted e c) (s.timerHead s.curBucket)) } := by
  induction evs generalizing s with
  | nil => simp [scheduleAll]
  | cons e rest ih =>
    have hstep : scheduleAll s (e :: rest)
        = scheduleAll (addEvent s true e.func e.expireTime e.owner e.arg).1 rest := rfl
    rw [hstep, ih, addEvent_link]
    simp [mkEvent]

theorem foldl_linkSorted_perm (evs c0 : List (timerEvent Func Owner Arg)) :
    (evs.foldl (fun c e => linkSorted e c) c0).Perm (c0 ++ evs) := by
  induction evs generalizing c0 with
  | nil => simp
  | cons e rest ih =>
    simp only [List.foldl_cons]
    refine (ih (linkSorted e c0)).trans ?_
    refine ((linkSorted_perm e c0).append_right rest).trans ?_
    exact (@List.perm_middle _ e c0 rest).symm

theorem foldl_linkSorted_sorted (evs c0 : List (timerEvent Func Owner Arg))
    (h : ChainSorted c0) : ChainSorted (evs.foldl (fun c e => linkSorted e c) c0) := by
  induction evs generalizing c0 with
  | nil => exact h
  | cons e rest ih => exact ih _ (chainSorted_linkSorted e c0 h)

/-- A leading part with expiries at most `E` followed by a part with greater
expiries: the scan for `E` stops between the two. -/
theorem link_between (ev : timerEvent Func Owner Arg) (p q : List (timerEvent Func Owner Arg))
    (hp : ∀ x ∈ p, x.expireTime ≤ ev.expireTime) (hq : ∀ x ∈ q, ev.expireTime < x.expireTime) :
    linkSorted ev (p ++ q) = p ++ ev :: q := by
  induction p with
  | nil =>
    cases q with
    | nil => simp [linkSorted]
    | cons y ys =>
      have hy := hq y (List.mem_cons_self _ _)
      simp [linkSorted, hy]
  | cons x rest ih =>
    have hx := hp x (List.mem_cons_self _ _)
    have hrest : ∀ y ∈ rest, y.expireTime ≤ ev.expireTime :=
      fun y hy => hp y (List.mem_cons_of_mem _ hy)
    simp [linkSorted, not_lt.mpr hx, ih hrest]

theorem dueRun_append_of_le (t : Nat) (p q : List (timerEvent Func Owner Arg))
    (hp : ∀ x ∈ p, x.expireTime ≤ (t : Int)) : dueRun t (p ++ q) = p ++ dueRun t q := by
  unfold dueRun
  apply List.takeWhile_append_of_pos
  intro a ha
  simpa using hp a ha

theorem tick_timerHead (s : SafeTimer Func Owner Arg) (w : Nat) :
    (tick s w).1.timerHead = (checkEvent s).1.timerHead := by
  simp only [tick]
  exact fixCurBucket_timerHead _ w

theorem tick_calls (s : SafeTimer Func Owner Arg) (w : Nat) :
    (tick s w).2 = (checkEvent s).2.2 := rfl

/-- The counters after one round that reads a wall clock greater than the static
counter. -/
theorem tick_counters (s : SafeTimer Func Owner Arg) (w : Nat) (hw : w < UINT32)
    (hlt : s.fixSecStep < w) :
    (tick s w).1.fixSecStep = s.fixSecStep + 1 ∧
    (tick s w).1.curBucket = bucketOf (s.fixSecStep + 1) ∧
    (tick s w).1.curTm = w := by
  have h1 : w % UINT32 = w := Nat.mod_eq_of_lt hw
  have h2 : (s.fixSecStep + 1) % UINT32 = s.fixSecStep + 1 := Nat.mod_eq_of_lt (by omega)
  simp only [tick, fixCurBucket, LOCK, UNLOCK, checkEvent_fst, h1, gt_iff_lt, hlt, if_true, h2]
  exact ⟨trivial, trivial, trivial⟩

theorem runTicks_succ (w : Nat → Nat) (n : Nat) (s : SafeTimer Func Owner Arg) :
    runTicks w (n + 1) s
      = ((tick (runTicks w n s).1 (w n)).1, (runTicks w n s).2 ++ (tick (runTicks w n s).1 (w n)).2) :=
  rfl

/-- While the static counter is behind the wall clock it advances by one in
every round, and the cursor follows it. -/
theorem runTicks_counters (s : SafeTimer Func Owner Arg) (w : Nat → Nat) (B : Nat)
    (hw : ∀ i, B ≤ w i ∧ w i < UINT32) (m : Nat) (hm : s.fixSecStep + m ≤ B) :
    (runTicks w m s).1.fixSecStep = s.fixSecStep + m ∧
    (1 ≤ m → (runTicks w m s).1.curBucket = bucketOf (s.fixSecStep + m) ∧
      (runTicks w m s).1.curTm = w (m - 1)) := by
  induction m with
  | zero => exact ⟨rfl, fun h => absurd h (by decide)⟩
  | succ k ih =>
    have ihk := ih (by omega)
    have hlt : (runTicks w k s).1.fixSecStep < w k := by
      rw [ihk.1]
      have := (hw k).1
      omega
    have ht := tick_counters (runTicks w k s).1 (w k) (hw k).2 hlt
    rw [runTicks_succ]
    refine ⟨?_, fun _ => ⟨?_, ?_⟩⟩
    · rw [ht.1, ihk.1]; rfl
    · rw [ht.2.1, ihk.1]; rfl
    · rw [ht.2.2]; rfl

/-- The counters after one round that reads a wall clock not greater than the
static counter. -/
theorem tick_counters_idle (s : SafeTimer Func Owner Arg) (w : Nat)
    (h : ¬ w % UINT32 > s.fixSecStep) :
    (tick s w).1.fixSecStep = s.fixSecStep ∧ (tick s w).1.curBucket = s.curBucket := by
  simp only [tick, fixCurBucket, LOCK, UNLOCK, checkEvent_fst, h, if_false]
  exact ⟨trivial, trivial⟩

theorem unInitLoop_eq (chain : List (timerEvent Func Owner Arg)) :
    unInitLoop chain = ([], []) := by
  induction chain with
  | nil => rfl
  | cons e rest ih => simpa [unInitLoop] using ih

theorem unInit_calls (s : SafeTimer Func Owner Arg) : (unInit s).2.2 = [] := by
  simp [unInit, unInitLoop_eq]

theorem unInit_timerHead (s : SafeTimer Func Owner Arg) (i : Fin TotalBucket) :
    (unInit s).1.timerHead i = [] := rfl

/-- Replacing one chain of a bucket array: the pending events change by the
events of that chain. -/
theorem pendingOf_update (th : Fin TotalBucket → List (timerEvent Func Owner Arg))
    (b : Fin TotalBucket) (c : List (timerEvent Func Owner Arg)) :
    pendingOf (Function.update th b c) + Multiset.ofList (th b)
      = pendingOf th + Multiset.ofList c := by
  unfold pendingOf
  have h1 := Finset.sum_update_of_mem (Finset.mem_univ b)
    (fun i => Multiset.ofList (th i)) (Multiset.ofList c)
  have h2 := Finset.add_sum_erase Finset.univ
    (fun i => Multiset.ofList (th i)) (Finset.mem_univ b)
  have h3 : (fun i => Multiset.ofList (Function.update th b c i))
      = Function.update (fun i => Multiset.ofList (th i)) b (Multiset.ofList c) := by
    funext i
    by_cases hi : i = b
    · subst hi; simp
    · simp [Function.update_noteq hi]
  show ∑ i : Fin TotalBucket, Multiset.ofList (Function.update th b c i) + Multiset.ofList (th b)
    = ∑ i : Fin TotalBucket, Multiset.ofList (th i) + Multiset.ofList c
  rw [h3, h1, ← h2, Finset.sdiff_singleton_eq_erase]
  simp only
  abel

theorem pending_addEvent (s : SafeTimer Func Owner Arg) (func : Option Func) (E : Int)
    (owner : Owner) (arg : Arg) :
    pending (addEvent s true func E owner arg).1 = mkEvent func E owner arg ::ₘ pending s := by
  have h := pendingOf_update s.timerHead s.curBucket
    (linkSorted (mkEvent func E owner arg) (s.timerHead s.curBucket))
  have hp : Multiset.ofList (linkSorted (mkEvent func E owner arg) (s.timerHead s.curBucket))
      = mkEvent func E owner arg ::ₘ Multiset.ofList (s.timerHead s.curBucket) := by
    rw [Multiset.cons_coe]
    exact Multiset.coe_eq_coe.mpr (linkSorted_perm _ _)
  rw [hp] at h
  unfold pending
  rw [addEvent_link]
  simp only
  have h2 : pendingOf (Function.update s.timerHead s.curBucket
        (linkSorted (mkEvent func E owner arg) (s.timerHead s.curBucket)))
      + Multiset.ofList (s.timerHead s.curBucket)
      = (mkEvent func E owner arg ::ₘ pendingOf s.timerHead)
        + Multiset.ofList (s.timerHead s.curBucket) := by
    rw [h, Multiset.cons_add, Multiset.add_cons]
  exact add_right_cancel h2

/-- Whatever the thread library returns, `init` leaves the buckets, the member
`secStep` and the cursor as `initCurBucket` set them. -/
theorem init_fields (s : SafeTimer Func Owner Arg) (T : Nat) (a b c d : Int) :
    (init s T a b c d).1.timerHead = (fun _ => []) ∧
    (init s T a b c d).1.secStep = T % UINT32 ∧
    (init s T a b c d).1.curBucket = bucketOf (T % UINT32) ∧
    (init s T a b c d).1.curTm = s.curTm ∧
    (init s T a b c d).1.fixSecStep = s.fixSecStep := by
  unfold init
  simp only
  split_ifs <;> exact ⟨rfl, rfl, rfl, rfl, rfl⟩

theorem takeWhile_dropWhile_nil {α : Type} (p : α → Bool) (l : List α) :
    (l.dropWhile p).takeWhile p = [] := by
  induction l with
  | nil => rfl
  | cons x rest ih =>
    by_cases hx : p x = true
    · simp only [List.dropWhile, hx]
      exact ih
    · have hx2 : p x = false := by simpa using hx
      simp [List.dropWhile, List.takeWhile, hx2]

/-- A `checkEvent` right after a `checkEvent` makes no call. -/
theorem checkEvent_twice (s : SafeTimer Func Owner Arg) :
    (checkEvent (checkEvent s).1).2.2 = [] := by
  have hTm : (checkEvent s).1.curTm = s.curTm := by rw [checkEvent_fst]
  have hCur : (checkEvent s).1.curBucket = s.curBucket := by rw [checkEvent_fst]
  rw [checkEvent_calls_run, hCur, checkEvent_chain, hTm]
  unfold dueRun
  rw [takeWhile_dropWhile_nil]
  rfl

/-- The events that `checkEvent` takes out of the wheel are those of the due run
of the cursor chain. -/
theorem pending_checkEvent (s : SafeTimer Func Owner Arg) :
    pending (checkEvent s).1 + Multiset.ofList (dueRun s.curTm (s.timerHead s.curBucket))
      = pending s := by
  have h := pendingOf_update s.timerHead s.curBucket
    ((s.timerHead s.curBucket).dropWhile (fun e => decide (e.expireTime ≤ (s.curTm : Int))))
  have hsplit := List.takeWhile_append_dropWhile
    (fun e : timerEvent Func Owner Arg => decide (e.expireTime ≤ (s.curTm : Int)))
    (s.timerHead s.curBucket)
  have hsum : Multiset.ofList (s.timerHead s.curBucket)
      = Multiset.ofList (dueRun s.curTm (s.timerHead s.curBucket))
        + Multiset.ofList ((s.timerHead s.curBucket).dropWhile
            (fun e => decide (e.expireTime ≤ (s.curTm : Int)))) := by
    unfold dueRun
    rw [Multiset.coe_add, hsplit]
  rw [hsum, ← add_assoc] at h
  unfold pending
  rw [checkEvent_fst]
  exact add_right_cancel h

theorem checkEvent_calls_le_run (s : SafeTimer Func Owner Arg) :
    Multiset.ofList ((checkEvent s).2.2.map Call.event)
      ≤ Multiset.ofList (dueRun s.curTm (s.timerHead s.curBucket)) := by
  rw [checkEvent_calls_run, map_event_flatMap_invoke]
  exact Multiset.coe_le.mpr (List.filter_sublist _).subperm

theorem pending_init (s : SafeTimer Func Owner Arg) (T : Nat) (a b c d : Int) :
    pending (init s T a b c d).1 = 0 := by
  unfold pending
  rw [(init_fields s T a b c d).1]
  simp [pendingOf]

theorem pending_unInit (s : SafeTimer Func Owner Arg) : pending (unInit s).1 = 0 := by
  simp [pending, pendingOf, unInit, LOCK, UNLOCK, INIT_LIST_HEAD]

theorem created_cons (op : Op Func Owner Arg) (rest : List (Op Func Owner Arg)) :
    created (op :: rest) = created [op] ++ created rest := by
  cases op with
  | addEvent ok func E owner arg => cases ok <;> rfl
  | init T a b c d => rfl
  | unInit => rfl
  | checkEvent => rfl
  | fixCurBucket w => rfl

/-- One operation: the events of its calls and the events still pending come
from the events that were pending and the event it created. -/
theorem step_account (s : SafeTimer Func Owner Arg) (op : Op Func Owner Arg) :
    Multiset.ofList ((step s op).2.map Call.event) + pending (step s op).1
      ≤ pending s + Multiset.ofList (created [op]) := by
  cases op with
  | init T a b c d =>
    simp only [step, List.map_nil, pending_init]
    exact le_trans (by simp) (Multiset.zero_le _)
  | unInit =>
    simp only [step, pending_unInit, unInit_calls, List.map_nil]
    exact le_trans (by simp) (Multiset.zero_le _)
  | addEvent ok func E owner arg =>
    cases ok with
    | false =>
      simp only [step, addEvent_fail, List.map_nil, created]
      show Multiset.ofList [] + pending s ≤ pending s + Multiset.ofList []
      simp
    | true =>
      simp only [step, List.map_nil, created, pending_addEvent]
      show Multiset.ofList [] + mkEvent func E owner arg ::ₘ pending s
        ≤ pending s + Multiset.ofList [mkEvent func E owner arg]
      rw [Multiset.coe_nil, zero_add, Multiset.coe_singleton, ← Multiset.singleton_add, add_comm]
  | checkEvent =>
    simp only [step, created]
    have h1 := pending_checkEvent s
    have h2 := checkEvent_calls_le_run s
    calc Multiset.ofList ((checkEvent s).2.2.map Call.event) + pending (checkEvent s).1
        ≤ Multiset.ofList (dueRun s.curTm (s.timerHead s.curBucket)) + pending (checkEvent s).1 :=
          add_le_add_right h2 _
      _ = pending s := by rw [add_comm, h1]
      _ ≤ pending s + Multiset.ofList [] := by simp
  | fixCurBucket w =>
    simp only [step, List.map_nil, created]
    show Multiset.ofList [] + pendingOf (fixCurBucket s w).timerHead
      ≤ pending s + Multiset.ofList []
    rw [fixCurBucket_timerHead]
    simp [pending]

theorem runOps_account (s : SafeTimer Func Owner Arg) (ops : List (Op Func Owner Arg)) :
    Multiset.ofList ((runOps s ops).2.map Call.event) + pending (runOps s ops).1
      ≤ pending s + Multiset.ofList (created ops) := by
  induction ops generalizing s with
  | nil => simp [runOps, created]
  | cons op rest ih =>
    have h1 := step_account s op
    have h2 := ih (step s op).1
    rw [created_cons]
    simp only [runOps, List.map_append]
    rw [← Multiset.coe_add, ← Multiset.coe_add]
    calc Multiset.ofList ((step s op).2.map Call.event)
          + Multiset.ofList ((runOps (step s op).1 rest).2.map Call.event)
          + pending (runOps (step s op).1 rest).1
        = Multiset.ofList ((step s op).2.map Call.event)
          + (Multiset.ofList ((runOps (step s op).1 rest).2.map Call.event)
            + pending (runOps (step s op).1 rest).1) := by rw [add_assoc]
      _ ≤ Multiset.ofList ((step s op).2.map Call.event)
          + (pending (step s op).1 + Multiset.ofList (created rest)) := add_le_add_left h2 _
      _ = (Multiset.ofList ((step s op).2.map Call.event) + pending (step s op).1)
          + Multiset.ofList (created rest) := by rw [add_assoc]
      _ ≤ (pending s + Multiset.ofList (created [op])) + Multiset.ofList (created rest) :=
          add_le_add_right h1 _
      _ = pending s + (Multiset.ofList (created [op]) + Multiset.ofList (created rest)) := by
          rw [add_assoc]

/-- The calls of a run that starts with no pending event are for events the run
created, each created event being called at most once. -/
theorem runOps_calls_le_created (s : SafeTimer Func Owner Arg) (hs : pending s = 0)
    (ops : List (Op Func Owner Arg)) :
    Multiset.ofList ((runOps s ops).2.map Call.event) ≤ Multiset.ofList (created ops) := by
  have h := runOps_account s ops
  rw [hs, zero_add] at h
  exact le_trans (Multiset.le_add_right _ _) h

theorem bucketOf_val (n : Nat) : ((bucketOf n : Fin TotalBucket) : Nat) = n % 60 := rfl

theorem runOps_append (s : SafeTimer Func Owner Arg) (l1 l2 : List (Op Func Owner Arg)) :
    runOps s (l1 ++ l2)
      = ((runOps (runOps s l1).1 l2).1, (runOps s l1).2 ++ (runOps (runOps s l1).1 l2).2) := by
  induction l1 generalizing s with
  | nil => simp [runOps]
  | cons op rest ih =>
    have h := ih (step s op).1
    show ((runOps (step s op).1 (rest ++ l2)).1,
        (step s op).2 ++ (runOps (step s op).1 (rest ++ l2)).2) = _
    rw [h]
    simp [runOps, List.append_assoc]

/-- Every operation but `fixCurBucket` leaves the static counter as it is. -/
theorem step_fixSecStep (s : SafeTimer Func Owner Arg) (op : Op Func Owner Arg)
    (h : ∀ w, op ≠ Op.fixCurBucket w) : (step s op).1.fixSecStep = s.fixSecStep := by
  cases op with
  | init T a b c d => exact (init_fields s T a b c d).2.2.2.2
  | unInit => rfl
  | addEvent ok func E owner arg =>
    cases ok with
    | false => simp only [step, addEvent_fail]; rfl
    | true => simp only [step, addEvent_link]
  | checkEvent => simp only [step, checkEvent_fst]
  | fixCurBucket w => exact absurd rfl (h w)

/-- A `fixCurBucket` call that reads a wall clock greater than the static
counter advances the counter by one and sets the cursor from it. -/
theorem fixCurBucket_advance (s : SafeTimer Func Owner Arg) (w : Nat) (hw : w < UINT32)
    (hlt : s.fixSecStep < w) :
    (fixCurBucket s w).fixSecStep = s.fixSecStep + 1 ∧
    (fixCurBucket s w).curBucket = bucketOf (s.fixSecStep + 1) := by
  have h1 : w % UINT32 = w := Nat.mod_eq_of_lt hw
  have h2 : (s.fixSecStep + 1) % UINT32 = s.fixSecStep + 1 := Nat.mod_eq_of_lt (by omega)
  simp only [fixCurBucket, LOCK, UNLOCK, h1, gt_iff_lt, hlt, if_true, h2]
  exact ⟨trivial, trivial⟩

theorem fixCurBucket_secStep (s : SafeTimer Func Owner Arg) (w : Nat) :
    (fixCurBucket s w).secStep = s.secStep := by
  unfold fixCurBucket
  simp only [LOCK, UNLOCK]
  split <;> rfl

theorem fixCurBucket_fixSecStep (s : SafeTimer Func Owner Arg) (w : Nat) :
    (fixCurBucket s w).fixSecStep
      = if w % UINT32 > s.fixSecStep then (s.fixSecStep + 1) % UINT32 else s.fixSecStep := by
  unfold fixCurBucket
  simp only [LOCK, UNLOCK]
  split <;> rfl

/-- The static counter after a run in which every `fixCurBucket` call reads a
wall clock greater than its number: the number of calls made so far. -/
theorem runOps_fixSecStep (s : SafeTimer Func Owner Arg) (k : Nat)
    (ops : List (Op Func Owner Arg)) (hs : s.fixSecStep = k) (hok : FixOk k ops) :
    (runOps s ops).1.fixSecStep = k + fixCalls ops := by
  induction ops generalizing s k with
  | nil => simpa [runOps, fixCalls] using hs
  | cons op rest ih =>
    cases op with
    | fixCurBucket w =>
      obtain ⟨⟨h1, h2⟩, hrest⟩ := hok
      have hadv := fixCurBucket_advance s w h2 (by omega)
      have := ih (fixCurBucket s w) (k + 1) (by rw [hadv.1, hs]) hrest
      simp only [runOps, step, fixCalls]
      rw [this]
      omega
    | init T a b c d =>
      exact ih _ k ((step_fixSecStep s _ (fun w => by simp)).trans hs) hok
    | unInit =>
      exact ih _ k ((step_fixSecStep s _ (fun w => by simp)).trans hs) hok
    | addEvent ok func E owner arg =>
      exact ih _ k ((step_fixSecStep s _ (fun w => by simp)).trans hs) hok
    | checkEvent =>
      exact ih _ k ((step_fixSecStep s _ (fun w => by simp)).trans hs) hok

/-- The calls of a shorter run of the sweeper are the first calls of a longer
one. -/
theorem runTicks_calls_prefix (w : Nat → Nat) (s : SafeTimer Func Owner Arg) (n m : Nat)
    (h : n ≤ m) : (runTicks w n s).2 <+: (runTicks w m s).2 := by
  induction m with
  | zero =>
    have : n = 0 := Nat.le_zero.mp h
    subst this
    exact List.prefix_refl _
  | succ k ih =>
    rcases Nat.lt_or_ge n (k + 1) with hlt | hge
    · rw [runTicks_succ]
      exact (ih (Nat.lt_succ_iff.mp hlt)).trans (List.prefix_append _ _)
    · have : n = k + 1 := Nat.le_antisymm h hge
      subst this
      exact List.prefix_refl _

end Lemmas

/-! ## The claims -/

section Claims

/-- C1 (the code at a failing input).  After `init` at second 100 the cursor is
slot 40.  `addEvent` with expiry 65 succeeds and links the event into slot 40,
the cursor bucket; slot 5, which is 65 mod 60, stays empty. -/
theorem addEvent_links_into_cursor_bucket :
    (init progStart 100 0 0 0 0).1.curBucket = bucketOf 40 ∧
    (addEvent (init progStart 100 0 0 0 0).1 true (some 1) 65 7 0).2 = 0 ∧
    (addEvent (init progStart 100 0 0 0 0).1 true (some 1) 65 7 0).1.timerHead (bucketOf 65) = [] ∧
    (addEvent (init progStart 100 0 0 0 0).1 true (some 1) 65 7 0).1.timerHead (bucketOf 40)
      = [mkEvent (some 1) 65 7 0] := by
  refine ⟨by decide, by decide, by decide, by decide⟩

/-- C2.  In every state reachable from `init` through `addEvent`, `checkEvent`
and `fixCurBucket`, each of the 60 bucket chains is in ascending order of
expiry, and the head of a non-empty bucket has the smallest expiry of the
bucket.  Moreover `addEvent`, on any state whose cursor bucket is sorted, leaves
that bucket sorted. -/
theorem reachable_buckets_sorted (s : SafeTimer Func Owner Arg) (h : Reachable s) :
    (∀ i, ChainSorted (s.timerHead i)) ∧
    (∀ i e, (s.timerHead i).head? = some e → ∀ x ∈ s.timerHead i, e.expireTime ≤ x.expireTime) ∧
    (∀ t : SafeTimer Func Owner Arg, ChainSorted (t.timerHead t.curBucket) →
      ∀ (allocOk : Bool) (func : Option Func) (E : Int) (owner : Owner) (arg : Arg),
        ChainSorted ((addEvent t allocOk func E owner arg).1.timerHead t.curBucket)) := by
  have hs := reachable_allSorted h
  refine ⟨hs, ?_, ?_⟩
  · intro i e he x hx
    have hi := hs i
    cases hc : s.timerHead i with
    | nil => rw [hc] at he; simp at he
    | cons a rest =>
      rw [hc] at he hx hi
      simp only [List.head?_cons, Option.some.injEq] at he
      subst he
      rcases List.mem_cons.mp hx with rfl | hmem
      · exact le_refl _
      · exact (List.pairwise_cons.mp hi).1 x hmem
  · intro t ht allocOk func E owner arg
    cases allocOk with
    | false => rw [addEvent_fail]; exact ht
    | true =>
      rw [addEvent_fst]
      simp only [Function.update_same]
      exact chainSorted_insert (mkEvent func E owner arg) _ ht

/-- C2, at a concrete reachable state: `init` at second 100, then three
`addEvent` calls with expiries 65, 5 and 65; the cursor bucket, slot 40, is
sorted. -/
theorem reachable_buckets_sorted_witness :
    Reachable (addEvent (addEvent (addEvent (init progStart 100 0 0 0 0).1
        true (some 1) 65 7 0).1 true (some 1) 5 8 0).1 true (some 2) 65 9 0).1 ∧
    ChainSorted
      ((addEvent (addEvent (addEvent (init progStart 100 0 0 0 0).1 true (some 1) 65 7 0).1
        true (some 1) 5 8 0).1 true (some 2) 65 9 0).1.timerHead (bucketOf 40)) :=
  ⟨Reachable.addEvent true (some 2) 65 9 0
      (Reachable.addEvent true (some 1) 5 8 0
        (Reachable.addEvent true (some 1) 65 7 0 (Reachable.init progStart 100))),
    (reachable_buckets_sorted _
      (Reachable.addEvent true (some 2) 65 9 0
        (Reachable.addEvent true (some 1) 5 8 0
          (Reachable.addEvent true (some 1) 65 7 0 (Reachable.init progStart 100))))).1
      (bucketOf 40)⟩

/-- C3.  `checkEvent` on any state, with `run` the longest leading part of the
cursor chain whose expiries are at most `curTm`: the calls made are those of the
events of `run` that have a callback, one call each, in chain order, each with
the owner and argument of its event; the cursor chain loses exactly `run` and
keeps the other events in order; the first event kept, if any, has an expiry
greater than `curTm`; every other bucket, the cursor and the counters are
unchanged; the return value is 0. -/
theorem checkEvent_fires_leading_run (s : SafeTimer Func Owner Arg) :
    let chain := s.timerHead s.curBucket
    let run := chain.takeWhile (fun e => decide (e.expireTime ≤ (s.curTm : Int)))
    let r := checkEvent s
    r.2.2 = run.flatMap invoke ∧
    r.2.2.map Call.event = run.filter (fun e => e.func.isSome) ∧
    (∀ c ∈ r.2.2, c.event.func = some c.func ∧ c.owner = c.event.owner ∧ c.arg = c.event.arg) ∧
    chain = run ++ r.1.timerHead s.curBucket ∧
    (∀ e ∈ run, e.expireTime ≤ (s.curTm : Int)) ∧
    (∀ e, (r.1.timerHead s.curBucket).head? = some e → (s.curTm : Int) < e.expireTime) ∧
    (∀ i, i ≠ s.curBucket → r.1.timerHead i = s.timerHead i) ∧
    r.1.curBucket = s.curBucket ∧ r.1.curTm = s.curTm ∧ r.1.secStep = s.secStep ∧
    r.1.fixSecStep = s.fixSecStep ∧ r.1.m_mutex = s.m_mutex ∧
    r.2.1 = 0 := by
  intro chain run r
  have hcalls : r.2.2 = run.flatMap invoke := checkEvent_calls s
  have hfst : r.1 = _ := checkEvent_fst s
  refine ⟨hcalls, ?_, ?_, ?_, ?_, ?_, ?_, ?_, ?_, ?_, ?_, ?_, ?_⟩
  · rw [hcalls, map_event_flatMap_invoke]
  · intro c hc
    rw [hcalls] at hc
    obtain ⟨e, _, hce⟩ := List.mem_flatMap.mp hc
    unfold invoke at hce
    split at hce
    · next f hf =>
      simp only [List.mem_singleton] at hce
      subst hce
      exact ⟨hf, rfl, rfl⟩
    · simp at hce
  · rw [hfst]
    simp only [Function.update_same]
    exact (List.takeWhile_append_dropWhile _ chain).symm
  · intro e he
    exact mem_takeWhile_le _ chain e he
  · intro e he
    rw [hfst] at he
    simp only [Function.update_same] at he
    have := List.head?_dropWhile_not (fun e : timerEvent Func Owner Arg =>
      decide (e.expireTime ≤ (s.curTm : Int))) (s.timerHead s.curBucket)
    rw [he] at this
    simpa using this
  · intro i hi
    rw [hfst]
    simp only [Function.update_noteq hi]
  · rw [hfst]
  · rw [hfst]
  · rw [hfst]
  · rw [hfst]
  · rw [hfst]
  · rfl

/-- C4 (the code at a failing input).  After `init` at second 100 the member
`secStep` is 100 and the cursor is slot 40.  `fixCurBucket` with the wall clock
at 101 leaves the member at 100 and moves the cursor to slot 1, not to slot 41;
`fixCurBucket` with the wall clock at 100, not greater than the member, also
moves the cursor to slot 1. -/
theorem fixCurBucket_advances_static_counter :
    (init progStart 100 0 0 0 0).1.secStep = 100 ∧
    (init progStart 100 0 0 0 0).1.curBucket = bucketOf 40 ∧
    (fixCurBucket (init progStart 100 0 0 0 0).1 101).secStep = 100 ∧
    (fixCurBucket (init progStart 100 0 0 0 0).1 101).curBucket = bucketOf 1 ∧
    (fixCurBucket (init progStart 100 0 0 0 0).1 101).fixSecStep = 1 ∧
    (fixCurBucket (init progStart 100 0 0 0 0).1 100).curBucket = bucketOf 1 := by
  refine ⟨by decide, by decide, by decide, by decide, by decide, by decide⟩

/-- C5 (the code at a failing input).  The state after `init` at second 100 and
one `fixCurBucket` with the wall clock at 101 is reachable; its cursor is slot 1
while its member `secStep` is 100, which is 40 modulo 60. -/
theorem cursor_differs_from_secStep_mod :
    Reachable (fixCurBucket (init progStart 100 0 0 0 0).1 101) ∧
    (fixCurBucket (init progStart 100 0 0 0 0).1 101).curBucket = bucketOf 1 ∧
    (fixCurBucket (init progStart 100 0 0 0 0).1 101).secStep = 100 ∧
    (fixCurBucket (init progStart 100 0 0 0 0).1 101).curBucket
      ≠ bucketOf (fixCurBucket (init progStart 100 0 0 0 0).1 101).secStep :=
  ⟨Reachable.fixCurBucket 101 (Reachable.init progStart 100), by decide, by decide, by decide⟩

/-- C6.  Never fired early.  For any state with tracked current time `curTm`
and expiries `E1 ≤ curTm < E2`, after the two events have been scheduled by
`addEvent` in either order (both land in the cursor bucket), `checkEvent` makes
the call of the `E1` event, makes no call for the `E2` event, and leaves the
`E2` event in the bucket.  And on any state, a `checkEvent` that makes a call
for the `E2` event has a tracked current time of at least `E2`. -/
theorem not_fired_before_expiry (s : SafeTimer Func Owner Arg)
    (f1 f2 : Option Func) (E1 E2 : Int) (o1 o2 : Owner) (a1 a2 : Arg)
    (h1 : E1 ≤ (s.curTm : Int)) (h2 : (s.curTm : Int) < E2) :
    (∀ s', (s' = (addEvent (addEvent s true f1 E1 o1 a1).1 true f2 E2 o2 a2).1 ∨
            s' = (addEvent (addEvent s true f2 E2 o2 a2).1 true f1 E1 o1 a1).1) →
      s'.curTm = s.curTm ∧ s'.curBucket = s.curBucket ∧
      (∀ f, f1 = some f →
        ({ func := f, owner := o1, arg := a1, event := mkEvent f1 E1 o1 a1 } : Call Func Owner Arg)
          ∈ (checkEvent s').2.2) ∧
      (∀ c ∈ (checkEvent s').2.2, c.event ≠ mkEvent f2 E2 o2 a2) ∧
      mkEvent f2 E2 o2 a2 ∈ (checkEvent s').1.timerHead s.curBucket) ∧
    (∀ u : SafeTimer Func Owner Arg,
      (∃ c ∈ (checkEvent u).2.2, c.event = mkEvent f2 E2 o2 a2) → E2 ≤ (u.curTm : Int)) := by
  constructor
  · intro s' hs'
    have key : s'.curTm = s.curTm ∧ s'.curBucket = s.curBucket ∧
        mkEvent f1 E1 o1 a1 ∈ dueRun s.curTm (s'.timerHead s.curBucket) ∧
        mkEvent f2 E2 o2 a2 ∈ s'.timerHead s.curBucket := by
      rcases hs' with rfl | rfl
      · refine ⟨?_, ?_, ?_, ?_⟩
        · rw [addEvent_curTm, addEvent_curTm]
        · rw [addEvent_curBucket, addEvent_curBucket]
        · have hc := addEvent_chain (addEvent s true f1 E1 o1 a1).1 f2 E2 o2 a2
          rw [addEvent_curBucket] at hc
          rw [hc, addEvent_chain]
          exact mem_dueRun_linkSorted _ _ _ _ (mem_dueRun_linkSorted_self _ _ _ h1)
        · have hc := addEvent_chain (addEvent s true f1 E1 o1 a1).1 f2 E2 o2 a2
          rw [addEvent_curBucket] at hc
          rw [hc]
          exact (linkSorted_perm _ _).mem_iff.mpr (List.mem_cons_self _ _)
      · refine ⟨?_, ?_, ?_, ?_⟩
        · rw [addEvent_curTm, addEvent_curTm]
        · rw [addEvent_curBucket, addEvent_curBucket]
        · have hc := addEvent_chain (addEvent s true f2 E2 o2 a2).1 f1 E1 o1 a1
          rw [addEvent_curBucket] at hc
          rw [hc]
          exact mem_dueRun_linkSorted_self _ _ _ h1
        · have hc := addEvent_chain (addEvent s true f2 E2 o2 a2).1 f1 E1 o1 a1
          rw [addEvent_curBucket] at hc
          rw [hc, addEvent_chain]
          refine (linkSorted_perm _ _).mem_iff.mpr (List.mem_cons_of_mem _ ?_)
          exact (linkSorted_perm _ _).mem_iff.mpr (List.mem_cons_self _ _)
    obtain ⟨hTm, hCur, hrun, hmem⟩ := key
    refine ⟨hTm, hCur, ?_, ?_, ?_⟩
    · intro f hf
      rw [checkEvent_calls_run, hTm, hCur]
      exact List.mem_flatMap.mpr ⟨_, hrun, mem_invoke (mkEvent f1 E1 o1 a1) f hf⟩
    · intro c hc hce
      have hdue := checkEvent_call_due s' c hc
      rw [hce, hTm] at hdue
      exact absurd hdue (not_le.mpr h2)
    · have hc := checkEvent_chain s'
      rw [hCur] at hc
      rw [hc, hTm]
      exact mem_dropWhile_of_not_due _ _ _ hmem h2
  · rintro u ⟨c, hc, hce⟩
    have hdue := checkEvent_call_due u c hc
    rw [hce] at hdue
    exact hdue

/-- C6 at a concrete input: tracked current time 105, expiries 105 and 165,
the later one scheduled first.  The call of the first event is made, the second
event stays in the cursor bucket. -/
theorem not_fired_before_expiry_witness :
    ((105 : Int) ≤ ((fixCurBucket (init progStart 100 0 0 0 0).1 105).curTm : Int) ∧
     ((fixCurBucket (init progStart 100 0 0 0 0).1 105).curTm : Int) < 165) ∧
    (({ func := 1, owner := 7, arg := 0, event := mkEvent (some 1) 105 7 0 } : Call Nat Nat Nat)
        ∈ (checkEvent (addEvent (addEvent (fixCurBucket (init progStart 100 0 0 0 0).1 105)
            true (some 2) 165 8 0).1 true (some 1) 105 7 0).1).2.2 ∧
      mkEvent (some 2) 165 8 0
        ∈ (checkEvent (addEvent (addEvent (fixCurBucket (init progStart 100 0 0 0 0).1 105)
            true (some 2) 165 8 0).1 true (some 1) 105 7 0).1).1.timerHead
          (fixCurBucket (init progStart 100 0 0 0 0).1 105).curBucket) :=
  ⟨⟨by decide, by decide⟩,
    ((not_fired_before_expiry (fixCurBucket (init progStart 100 0 0 0 0).1 105)
        (some 1) (some 2) 105 165 7 8 0 0 (by decide) (by decide)).1 _ (Or.inr rfl)).2.2.1 1 rfl,
    ((not_fired_before_expiry (fixCurBucket (init progStart 100 0 0 0 0).1 105)
        (some 1) (some 2) 105 165 7 8 0 0 (by decide) (by decide)).1 _ (Or.inr rfl)).2.2.2.2⟩

/-- C7.  Starting from an empty cursor bucket, after events with pairwise
distinct expiries have been scheduled by `addEvent` in any order, a `checkEvent`
whose tracked current time is at least every one of the expiries makes the calls
of all the events that have a callback, each once, in strictly ascending order
of expiry, each with the function, owner and argument of its event, and empties
the bucket. -/
theorem distinct_expiries_fire_ascending (s : SafeTimer Func Owner Arg)
    (evs : List (timerEvent Func Owner Arg))
    (hempty : s.timerHead s.curBucket = [])
    (hdistinct : (evs.map (fun e => e.expireTime)).Nodup)
    (hdue : ∀ e ∈ evs, e.expireTime ≤ (s.curTm : Int)) :
    ((checkEvent (scheduleAll s evs)).2.2.map Call.event).Perm
        (evs.filter (fun e => e.func.isSome)) ∧
    ((checkEvent (scheduleAll s evs)).2.2.map Call.event).Pairwise
        (fun a b => a.expireTime < b.expireTime) ∧
    (∀ c ∈ (checkEvent (scheduleAll s evs)).2.2,
        c.event.func = some c.func ∧ c.owner = c.event.owner ∧ c.arg = c.event.arg) ∧
    (checkEvent (scheduleAll s evs)).1.timerHead s.curBucket = [] := by
  have hperm : (evs.foldl (fun c e => linkSorted e c) []).Perm evs := by
    simpa using foldl_linkSorted_perm evs []
  have hsorted : ChainSorted (evs.foldl (fun c e => linkSorted e c) []) :=
    foldl_linkSorted_sorted evs [] List.Pairwise.nil
  have hall : ∀ e ∈ evs.foldl (fun c e => linkSorted e c) [], e.expireTime ≤ (s.curTm : Int) :=
    fun e he => hdue e (hperm.mem_iff.mp he)
  have hnd : ((evs.foldl (fun c e => linkSorted e c) []).map (fun e => e.expireTime)).Nodup :=
    (hperm.map _).nodup_iff.mpr hdistinct
  have hstrict : (evs.foldl (fun c e => linkSorted e c) []).Pairwise
      (fun a b => a.expireTime < b.expireTime) := by
    have hne := List.pairwise_map.mp hnd
    exact (hsorted.and hne).imp (fun h => lt_of_le_of_ne h.1 h.2)
  have hchain : (scheduleAll s evs).timerHead (scheduleAll s evs).curBucket
      = evs.foldl (fun c e => linkSorted e c) [] := by
    rw [scheduleAll_eq]
    simp [hempty]
  have hTm : (scheduleAll s evs).curTm = s.curTm := by rw [scheduleAll_eq]
  have hCur : (scheduleAll s evs).curBucket = s.curBucket := by rw [scheduleAll_eq]
  have hrun : dueRun s.curTm (evs.foldl (fun c e => linkSorted e c) [])
      = evs.foldl (fun c e => linkSorted e c) [] := by
    unfold dueRun
    rw [List.takeWhile_eq_self_iff]
    intro x hx
    simpa using hall x hx
  have hcalls : (checkEvent (scheduleAll s evs)).2.2
      = (evs.foldl (fun c e => linkSorted e c) []).flatMap invoke := by
    rw [checkEvent_calls_run, hchain, hTm, hrun]
  refine ⟨?_, ?_, ?_, ?_⟩
  · rw [hcalls, map_event_flatMap_invoke]
    exact hperm.filter _
  · rw [hcalls, map_event_flatMap_invoke]
    exact hstrict.filter _
  · intro c hc
    rw [hcalls] at hc
    exact flatMap_invoke_fields _ c hc
  · have hc := checkEvent_chain (scheduleAll s evs)
    rw [hCur] at hc
    rw [hc, ← hCur, hchain, hTm, List.dropWhile_eq_nil_iff]
    intro x hx
    simpa using hall x hx

/-- C7 at a concrete input: expiries 30, 10 and 20 scheduled in that order into
the empty cursor bucket of a wheel whose tracked current time is 105; the calls
are made in the order 10, 20, 30. -/
theorem distinct_expiries_fire_ascending_witness :
    ((fixCurBucket (init progStart 100 0 0 0 0).1 105).timerHead
        (fixCurBucket (init progStart 100 0 0 0 0).1 105).curBucket = [] ∧
     ([mkEvent (some 1) 30 7 0, mkEvent (some 1) 10 8 0, mkEvent (some 1) 20 9 0].map
        (fun e : timerEvent Nat Nat Nat => e.expireTime)).Nodup ∧
     (∀ e ∈ [mkEvent (some 1) 30 7 0, mkEvent (some 1) 10 8 0, mkEvent (some 1) 20 9 0],
        e.expireTime ≤ ((fixCurBucket (init progStart 100 0 0 0 0).1 105).curTm : Int))) ∧
    ((checkEvent (scheduleAll (fixCurBucket (init progStart 100 0 0 0 0).1 105)
        [mkEvent (some 1) 30 7 0, mkEvent (some 1) 10 8 0, mkEvent (some 1) 20 9 0])).2.2.map
          Call.event).Pairwise (fun a b => a.expireTime < b.expireTime) :=
  ⟨⟨by decide, by decide, by decide⟩,
    (distinct_expiries_fire_ascending (fixCurBucket (init progStart 100 0 0 0 0).1 105)
      [mkEvent (some 1) 30 7 0, mkEvent (some 1) 10 8 0, mkEvent (some 1) 20 9 0]
      (by decide) (by decide) (by decide)).2.1⟩

/-- C8.  Ties are first-in first-out.  In a reachable state, a successful
`addEvent` with expiry `E` links the new event after every event of the cursor
bucket whose expiry is at most `E`, so after every one whose expiry is `E`, and
before every event whose expiry is greater.  Hence when `A` and then `B` are
scheduled with the same expiry `E`, `B` is linked right after `A`, and a
`checkEvent` whose tracked current time is at least `E` makes the call of `A`
and then the call of `B`. -/
theorem ties_first_in_first_out (s : SafeTimer Func Owner Arg) (hs : Reachable s)
    (fA : Option Func) (E : Int) (oA : Owner) (aA : Arg) :
    (∃ p q, s.timerHead s.curBucket = p ++ q ∧
      (addEvent s true fA E oA aA).1.timerHead s.curBucket = p ++ mkEvent fA E oA aA :: q ∧
      (∀ x ∈ p, x.expireTime ≤ E) ∧ (∀ x ∈ q, E < x.expireTime)) ∧
    (∀ (fB : Option Func) (oB : Owner) (aB : Arg),
      (∃ p q, s.timerHead s.curBucket = p ++ q ∧
        (addEvent (addEvent s true fA E oA aA).1 true fB E oB aB).1.timerHead s.curBucket
          = p ++ mkEvent fA E oA aA :: mkEvent fB E oB aB :: q) ∧
      (E ≤ (s.curTm : Int) → ∃ pre post,
        (checkEvent (addEvent (addEvent s true fA E oA aA).1 true fB E oB aB).1).2.2
          = pre ++ invoke (mkEvent fA E oA aA) ++ invoke (mkEvent fB E oB aB) ++ post)) := by
  have hsorted : ChainSorted (s.timerHead s.curBucket) := reachable_allSorted hs _
  have hsplit := List.takeWhile_append_dropWhile
    (fun e : timerEvent Func Owner Arg => decide (e.expireTime ≤ E)) (s.timerHead s.curBucket)
  have hp : ∀ x ∈ (s.timerHead s.curBucket).takeWhile (fun e => decide (e.expireTime ≤ E)),
      x.expireTime ≤ E := fun x hx => mem_takeWhile_le E _ x hx
  have hq : ∀ x ∈ (s.timerHead s.curBucket).dropWhile (fun e => decide (e.expireTime ≤ E)),
      E < x.expireTime := fun x hx => mem_dropWhile_gt E _ hsorted x hx
  generalize (s.timerHead s.curBucket).takeWhile (fun e => decide (e.expireTime ≤ E)) = p at hsplit hp
  generalize (s.timerHead s.curBucket).dropWhile (fun e => decide (e.expireTime ≤ E)) = q at hsplit hq
  have h1 : (addEvent s true fA E oA aA).1.timerHead s.curBucket = p ++ mkEvent fA E oA aA :: q := by
    rw [addEvent_chain, ← hsplit]
    exact link_between (mkEvent fA E oA aA) p q hp hq
  refine ⟨⟨p, q, hsplit.symm, h1, hp, hq⟩, ?_⟩
  intro fB oB aB
  have h2 : (addEvent (addEvent s true fA E oA aA).1 true fB E oB aB).1.timerHead s.curBucket
      = p ++ mkEvent fA E oA aA :: mkEvent fB E oB aB :: q := by
    have hc := addEvent_chain (addEvent s true fA E oA aA).1 fB E oB aB
    rw [addEvent_curBucket] at hc
    rw [hc, h1]
    have hpA : ∀ x ∈ p ++ [mkEvent fA E oA aA], x.expireTime ≤ (mkEvent fB E oB aB).expireTime := by
      intro x hx
      rcases List.mem_append.mp hx with hx | hx
      · exact hp x hx
      · simp only [List.mem_singleton] at hx
        subst hx
        exact le_refl _
    have := link_between (mkEvent fB E oB aB) (p ++ [mkEvent fA E oA aA]) q hpA hq
    simpa using this
  refine ⟨⟨p, q, hsplit.symm, h2⟩, ?_⟩
  intro hE
  have hTm : (addEvent (addEvent s true fA E oA aA).1 true fB E oB aB).1.curTm = s.curTm := by
    rw [addEvent_curTm, addEvent_curTm]
  have hCur : (addEvent (addEvent s true fA E oA aA).1 true fB E oB aB).1.curBucket
      = s.curBucket := by
    rw [addEvent_curBucket, addEvent_curBucket]
  have hpt : ∀ x ∈ p ++ [mkEvent fA E oA aA, mkEvent fB E oB aB], x.expireTime ≤ (s.curTm : Int) := by
    intro x hx
    rcases List.mem_append.mp hx with hx | hx
    · exact le_trans (hp x hx) hE
    · simp only [List.mem_cons, List.mem_singleton, List.not_mem_nil, or_false] at hx
      rcases hx with rfl | rfl <;> exact hE
  refine ⟨p.flatMap invoke, (dueRun s.curTm q).flatMap invoke, ?_⟩
  rw [checkEvent_calls_run, hTm, hCur, h2]
  have := dueRun_append_of_le s.curTm (p ++ [mkEvent fA E oA aA, mkEvent fB E oB aB]) q hpt
  simp only [List.append_assoc, List.cons_append, List.nil_append] at this
  rw [this]
  simp [List.flatMap_append, List.flatMap_cons]

/-- C8 at a concrete input: in the reachable state after `init` at second 100
and `fixCurBucket` at second 105, `A` and then `B` are scheduled with expiry
105; `checkEvent` makes the call of `A` and then the call of `B`. -/
theorem ties_first_in_first_out_witness :
    Reachable (fixCurBucket (init progStart 100 0 0 0 0).1 105) ∧
    (105 : Int) ≤ ((fixCurBucket (init progStart 100 0 0 0 0).1 105).curTm : Int) ∧
    ∃ pre post,
      (checkEvent (addEvent (addEvent (fixCurBucket (init progStart 100 0 0 0 0).1 105)
          true (some 1) 105 7 0).1 true (some 2) 105 8 0).1).2.2
        = pre ++ invoke (mkEvent (some 1) 105 7 0) ++ invoke (mkEvent (some 2) 105 8 0) ++ post :=
  ⟨Reachable.fixCurBucket 105 (Reachable.init progStart 100), by decide,
    ((ties_first_in_first_out (fixCurBucket (init progStart 100 0 0 0 0).1 105)
      (Reachable.fixCurBucket 105 (Reachable.init progStart 100)) (some 1) 105 7 0).2
        (some 2) 8 0).2 (by decide)⟩

/-- C11.  On any state, also one whose buckets are all empty, `unInit` returns
0, makes no call, and leaves each of the 60 buckets empty (its loop deletes every
event of every chain before the sentinel is reset).  A second `unInit` on the
resulting state returns 0 again, makes no call and leaves the buckets as they
are. -/
theorem unInit_empties_all_buckets (s : SafeTimer Func Owner Arg) :
    (unInit s).2.1 = 0 ∧ (unInit s).2.2 = [] ∧
    (∀ i, (unInit s).1.timerHead i = []) ∧
    (∀ i, (unInitLoop (s.timerHead i)).1 = []) ∧
    (unInit (unInit s).1).2.1 = 0 ∧ (unInit (unInit s).1).2.2 = [] ∧
    (unInit (unInit s).1).1.timerHead = (unInit s).1.timerHead := by
  refine ⟨rfl, unInit_calls s, fun i => rfl, fun i => ?_, rfl, unInit_calls _, rfl⟩
  rw [unInitLoop_eq]

/-- C13.  After `init` at wall-clock second `T < 2^32`, whatever the thread
library returns, every bucket is empty, the member `secStep` equals `T`, and the
cursor is the slot with index `T mod 60`. -/
theorem init_sets_buckets_and_cursor (s : SafeTimer Func Owner Arg) (T : Nat)
    (a b c d : Int) (hT : T < UINT32) :
    (∀ i, (init s T a b c d).1.timerHead i = []) ∧
    (init s T a b c d).1.secStep = T ∧
    (init s T a b c d).1.curBucket = bucketOf T ∧
    ((init s T a b c d).1.curBucket : Nat) = T % 60 ∧
    (init s T 0 0 0 0).2 = 0 := by
  obtain ⟨h1, h2, h3, _, _⟩ := init_fields s T a b c d
  have hmod : T % UINT32 = T := Nat.mod_eq_of_lt hT
  rw [hmod] at h2 h3
  refine ⟨fun i => by rw [h1], h2, h3, ?_, rfl⟩
  rw [h3]
  rfl

/-- C13 at a concrete input: `init` at second 100 on the global object; the
cursor is slot 40. -/
theorem init_sets_buckets_and_cursor_witness :
    100 < UINT32 ∧ (init progStart 100 0 0 0 0).1.secStep = 100 ∧
    ((init progStart 100 0 0 0 0).1.curBucket : Nat) = 100 % 60 :=
  ⟨by decide, (init_sets_buckets_and_cursor progStart 100 0 0 0 0 (by decide)).2.1,
    (init_sets_buckets_and_cursor progStart 100 0 0 0 0 (by decide)).2.2.2.1⟩

/-- C14 (the code on the failing path).  When the allocation fails, `addEvent`
returns -1 and leaves the buckets, the cursor and the counters as they were, but
it returns without `UNLOCK`: the hold count of the mutex is one more than on
entry, whereas on the successful path it is the same as on entry. -/
theorem addEvent_alloc_failure_keeps_gate (s : SafeTimer Func Owner Arg)
    (func : Option Func) (E : Int) (owner : Owner) (arg : Arg) :
    (addEvent s false func E owner arg).2 = -1 ∧
    (addEvent s false func E owner arg).1.timerHead = s.timerHead ∧
    (addEvent s false func E owner arg).1.curBucket = s.curBucket ∧
    (addEvent s false func E owner arg).1.curTm = s.curTm ∧
    (addEvent s false func E owner arg).1.secStep = s.secStep ∧
    (addEvent s false func E owner arg).1.fixSecStep = s.fixSecStep ∧
    (addEvent s false func E owner arg).1.m_mutex = s.m_mutex + 1 ∧
    (addEvent s false func E owner arg).1.m_mutex ≠ s.m_mutex ∧
    (addEvent s true func E owner arg).1.m_mutex = s.m_mutex := by
  rw [addEvent_fail, addEvent_link]
  exact ⟨rfl, rfl, rfl, rfl, rfl, rfl, rfl, Nat.succ_ne_self _, rfl⟩

/-- C18.  On any state a successful `addEvent` returns 0; the cursor chain
afterwards is the old chain with the new event, which carries the given
function, expiry, owner and argument, put in at one position, the old events
keeping their order; every other bucket is unchanged; the pending events are the
old ones and the new one, one more in number; the cursor, the member `secStep`,
the tracked current time, the static counter and the hold count of the mutex are
unchanged. -/
theorem addEvent_changes_one_chain (s : SafeTimer Func Owner Arg)
    (func : Option Func) (E : Int) (owner : Owner) (arg : Arg) :
    (addEvent s true func E owner arg).2 = 0 ∧
    (∃ p q, s.timerHead s.curBucket = p ++ q ∧
      (addEvent s true func E owner arg).1.timerHead s.curBucket
        = p ++ mkEvent func E owner arg :: q) ∧
    ((mkEvent func E owner arg).func = func ∧ (mkEvent func E owner arg).expireTime = E ∧
      (mkEvent func E owner arg).owner = owner ∧ (mkEvent func E owner arg).arg = arg) ∧
    (addEvent s true func E owner arg).1.timerHead s.curBucket ≠ s.timerHead s.curBucket ∧
    (∀ i, i ≠ s.curBucket → (addEvent s true func E owner arg).1.timerHead i = s.timerHead i) ∧
    pending (addEvent s true func E owner arg).1 = mkEvent func E owner arg ::ₘ pending s ∧
    Multiset.card (pending (addEvent s true func E owner arg).1)
      = Multiset.card (pending s) + 1 ∧
    (addEvent s true func E owner arg).1.curBucket = s.curBucket ∧
    (addEvent s true func E owner arg).1.secStep = s.secStep ∧
    (addEvent s true func E owner arg).1.curTm = s.curTm ∧
    (addEvent s true func E owner arg).1.fixSecStep = s.fixSecStep ∧
    (addEvent s true func E owner arg).1.m_mutex = s.m_mutex := by
  have hsplit := List.takeWhile_append_dropWhile
    (fun e : timerEvent Func Owner Arg => decide (e.expireTime ≤ E)) (s.timerHead s.curBucket)
  have hchain : (addEvent s true func E owner arg).1.timerHead s.curBucket
      = (s.timerHead s.curBucket).takeWhile (fun e => decide (e.expireTime ≤ E))
        ++ mkEvent func E owner arg
          :: (s.timerHead s.curBucket).dropWhile (fun e => decide (e.expireTime ≤ E)) := by
    rw [addEvent_fst]
    simp only [Function.update_same, mkEvent]
  refine ⟨addEvent_snd s func E owner arg, ⟨_, _, hsplit.symm, hchain⟩, ⟨rfl, rfl, rfl, rfl⟩,
    ?_, ?_, pending_addEvent s func E owner arg, ?_, ?_, ?_, ?_, ?_, ?_⟩
  · intro h
    have hlen := congrArg List.length h
    rw [hchain] at hlen
    nth_rewrite 3 [← hsplit] at hlen
    simp only [List.length_append, List.length_cons] at hlen
    omega
  · intro i hi
    rw [addEvent_link]
    simp only [Function.update_noteq hi]
  · rw [pending_addEvent, Multiset.card_cons]
  · rw [addEvent_link]
  · rw [addEvent_link]
  · rw [addEvent_link]
  · rw [addEvent_link]
  · rw [addEvent_link]

/-- C12.  In a run of operations that starts from `init`, the events for which
calls are made form a sub-multiset of the events created by the successful
`addEvent` calls of the run: no created event is passed to its callback more
than once.  A `checkEvent` takes the events of the due run out of the wheel (the
pending events before it are the pending events after it and that run), and its
calls are for events of that run; a `checkEvent` right after it makes no call.
After `unInit` no event is pending, the next `checkEvent` makes no call, and
every call of a later run is for an event created in that later run. -/
theorem event_fired_at_most_once (s0 : SafeTimer Func Owner Arg) (T : Nat)
    (ops : List (Op Func Owner Arg)) :
    Multiset.ofList ((runOps (init s0 T 0 0 0 0).1 ops).2.map Call.event)
      ≤ Multiset.ofList (created ops) ∧
    (∀ s : SafeTimer Func Owner Arg,
      pending (checkEvent s).1 + Multiset.ofList (dueRun s.curTm (s.timerHead s.curBucket))
        = pending s ∧
      Multiset.ofList ((checkEvent s).2.2.map Call.event)
        ≤ Multiset.ofList (dueRun s.curTm (s.timerHead s.curBucket)) ∧
      (checkEvent (checkEvent s).1).2.2 = []) ∧
    (∀ (s : SafeTimer Func Owner Arg) (later : List (Op Func Owner Arg)),
      pending (unInit s).1 = 0 ∧
      (checkEvent (unInit s).1).2.2 = [] ∧
      Multiset.ofList ((runOps (unInit s).1 later).2.map Call.event)
        ≤ Multiset.ofList (created later)) := by
  refine ⟨runOps_calls_le_created _ (pending_init s0 T 0 0 0 0) ops, ?_, ?_⟩
  · intro s
    exact ⟨pending_checkEvent s, checkEvent_calls_le_run s, checkEvent_twice s⟩
  · intro s later
    refine ⟨pending_unInit s, ?_, runOps_calls_le_created _ (pending_unInit s) later⟩
    rw [checkEvent_calls_run]
    rfl

/-- C16 (counterexample).  The program starts, `init` runs at second
`2^32 + 1`, which is greater than 1, and `fixCurBucket` is called once with the
wall clock at the same second: the member `secStep`, a `uint32_t`, holds 1, not
`2^32 + 1`, and the static counter of `fixCurBucket` is 1 as well. -/
theorem secStep_wraps_onto_static_counter :
    (1 : Nat) < 4294967297 ∧
    (fixCurBucket (init progStart 4294967297 0 0 0 0).1 4294967297).fixSecStep = 1 ∧
    (fixCurBucket (init progStart 4294967297 0 0 0 0).1 4294967297).secStep = 1 ∧
    (fixCurBucket (init progStart 4294967297 0 0 0 0).1 4294967297).fixSecStep
      = (fixCurBucket (init progStart 4294967297 0 0 0 0).1 4294967297).secStep := by
  refine ⟨by decide, by decide, by decide, by decide⟩

/-- C16 (amended).  On any state `fixCurBucket` leaves the member `secStep`
unchanged; the counter it compares with the wall clock and increments is its
own static.  So when that static is 0, as at program start, after `init` at a
second `T` with `1 < T < 2^32` and one `fixCurBucket` call, the member `secStep`
is `T` and differs from the static counter, which is 1 when the wall clock read
by the call is not 0 modulo `2^32`. -/
theorem fixCurBucket_keeps_member_secStep (s : SafeTimer Func Owner Arg) (T W : Nat)
    (a b c d : Int) (hs : s.fixSecStep = 0) (hT1 : 1 < T) (hT2 : T < UINT32) :
    (∀ (u : SafeTimer Func Owner Arg) (w : Nat),
      (fixCurBucket u w).secStep = u.secStep ∧
      (fixCurBucket u w).fixSecStep
        = if w % UINT32 > u.fixSecStep then (u.fixSecStep + 1) % UINT32 else u.fixSecStep) ∧
    (0 < W % UINT32 → (fixCurBucket (init s T a b c d).1 W).fixSecStep = 1) ∧
    (fixCurBucket (init s T a b c d).1 W).secStep = T ∧
    (fixCurBucket (init s T a b c d).1 W).fixSecStep
      ≠ (fixCurBucket (init s T a b c d).1 W).secStep := by
  obtain ⟨_, hsec, _, _, hfix⟩ := init_fields s T a b c d
  have h1 : (fixCurBucket (init s T a b c d).1 W).fixSecStep
      = if W % UINT32 > 0 then 1 else 0 := by
    rw [fixCurBucket_fixSecStep, hfix, hs]
    rfl
  have h2 : (fixCurBucket (init s T a b c d).1 W).secStep = T := by
    rw [fixCurBucket_secStep, hsec]
    exact Nat.mod_eq_of_lt hT2
  refine ⟨fun u w => ⟨fixCurBucket_secStep u w, fixCurBucket_fixSecStep u w⟩, ?_, h2, ?_⟩
  · intro hW
    rw [h1, if_pos hW]
  · rw [h1, h2]
    split <;> omega

/-- C16 (amended) at a concrete input: program start, `init` at second 100, one
`fixCurBucket` call with the wall clock at 100. -/
theorem fixCurBucket_keeps_member_secStep_witness :
    (progStart.fixSecStep = 0 ∧ 1 < 100 ∧ 100 < UINT32) ∧
    (fixCurBucket (init progStart 100 0 0 0 0).1 100).fixSecStep = 1 ∧
    (fixCurBucket (init progStart 100 0 0 0 0).1 100).secStep = 100 :=
  ⟨⟨rfl, by decide, by decide⟩,
    (fixCurBucket_keeps_member_secStep progStart 100 100 0 0 0 0 rfl (by decide)
      (by decide)).2.1 (by decide),
    (fixCurBucket_keeps_member_secStep progStart 100 100 0 0 0 0 rfl (by decide)
      (by decide)).2.2.1⟩

/-- C17 (counterexample).  First: the first `fixCurBucket` call since program
start reads the wall-clock second `2^32`, which is greater than 1; the tracked
current time wraps to 0 and the cursor stays on slot 0, it is not set to slot 1.
Second: after `init` at second 120 the cursor is slot 0, and the first
`fixCurBucket` call sets it to slot 1, which is the slot following the initial
one.  Third: after `init` at second 61 the cursor is slot 1, and the first
`fixCurBucket` call leaves it there. -/
theorem first_fixCurBucket_edge_cases :
    ((1 : Nat) < 4294967296 ∧
      (fixCurBucket (init progStart 4294967296 0 0 0 0).1 4294967296).curBucket = bucketOf 0 ∧
      bucketOf 0 ≠ bucketOf 1) ∧
    ((init progStart 120 0 0 0 0).1.curBucket = bucketOf 0 ∧
      (fixCurBucket (init progStart 120 0 0 0 0).1 120).curBucket = bucketOf (0 + 1)) ∧
    ((init progStart 61 0 0 0 0).1.curBucket = bucketOf 1 ∧
      (fixCurBucket (init progStart 61 0 0 0 0).1 61).curBucket
        = (init progStart 61 0 0 0 0).1.curBucket) := by
  refine ⟨⟨by decide, by decide, by decide⟩, ⟨by decide, by decide⟩, ⟨by decide, by decide⟩⟩

/-- C17 (amended).  From a state in which the static counter of `fixCurBucket`
is 0, as at program start, let a run of operations (`init`, `unInit`,
`addEvent`, `checkEvent`, `fixCurBucket` in any order) be such that each of its
`fixCurBucket` calls reads a wall-clock second that is below `2^32` and greater
than the number of the call; the readings may be equal from one call to the
next.  Then the `n`-th `fixCurBucket` call sets the cursor to slot `n mod 60`
and the static counter to `n`.  Two consecutive numbers give different slots, 60
consecutive numbers give each of the 60 slots exactly once, and the first call
after `init` at any second `T` sets the cursor to slot 1, which differs from the
slot following the initial one unless the initial slot is slot 0. -/
theorem nth_fixCurBucket_sets_slot_n (s : SafeTimer Func Owner Arg)
    (pre : List (Op Func Owner Arg)) (W : Nat) (hs : s.fixSecStep = 0)
    (hpre : FixOk 0 pre) (hW : fixCalls pre + 1 < W) (hW2 : W < UINT32) :
    (runOps s (pre ++ [Op.fixCurBucket W])).1.curBucket = bucketOf (fixCalls pre + 1) ∧
    ((runOps s (pre ++ [Op.fixCurBucket W])).1.curBucket : Nat) = (fixCalls pre + 1) % 60 ∧
    (runOps s (pre ++ [Op.fixCurBucket W])).1.fixSecStep = fixCalls pre + 1 ∧
    (∀ n : Nat, bucketOf n ≠ bucketOf (n + 1)) ∧
    (∀ (n : Nat) (slot : Fin TotalBucket), ∃! k, k < 60 ∧ bucketOf (n + k) = slot) ∧
    (∀ (T W1 : Nat) (a b c d : Int), 1 < W1 → W1 < UINT32 →
      (fixCurBucket (init s T a b c d).1 W1).curBucket = bucketOf 1 ∧
      (((init s T a b c d).1.curBucket : Nat) ≠ 0 →
        bucketOf 1 ≠ bucketOf (((init s T a b c d).1.curBucket : Nat) + 1))) := by
  have hcount := runOps_fixSecStep s 0 pre hs hpre
  rw [Nat.zero_add] at hcount
  have hadv := fixCurBucket_advance (runOps s pre).1 W hW2 (by rw [hcount]; omega)
  rw [hcount] at hadv
  have hrun : (runOps s (pre ++ [Op.fixCurBucket W])).1 = fixCurBucket (runOps s pre).1 W := by
    rw [runOps_append]
    rfl
  refine ⟨?_, ?_, ?_, ?_, ?_, ?_⟩
  · rw [hrun]; exact hadv.2
  · rw [hrun, hadv.2]; rfl
  · rw [hrun]; exact hadv.1
  · intro n h
    have := congrArg Fin.val h
    rw [bucketOf_val, bucketOf_val] at this
    omega
  · intro n slot
    obtain ⟨v, hv⟩ := slot
    refine ⟨(v + 60 - n % 60) % 60, ⟨by omega, ?_⟩, ?_⟩
    · apply Fin.ext
      rw [bucketOf_val]
      show (n + (v + 60 - n % 60) % 60) % 60 = v
      have hv60 : v < 60 := hv
      omega
    · rintro k ⟨hk, hkb⟩
      have := congrArg Fin.val hkb
      rw [bucketOf_val] at this
      have hv2 : (n + k) % 60 = v := this
      have hv60 : v < 60 := hv
      omega
  · intro T W1 a b c d h1 h2
    have hfix : (init s T a b c d).1.fixSecStep = 0 :=
      ((init_fields s T a b c d).2.2.2.2).trans hs
    have hadv1 := fixCurBucket_advance (init s T a b c d).1 W1 h2 (by rw [hfix]; omega)
    rw [hfix] at hadv1
    refine ⟨hadv1.2, ?_⟩
    intro hne h
    have hlt : ((init s T a b c d).1.curBucket : Nat) < 60 := (init s T a b c d).1.curBucket.isLt
    have := congrArg Fin.val h
    rw [bucketOf_val, bucketOf_val] at this
    omega

/-- C17 (amended) at a concrete input: program start, then `init` at second 100,
a `fixCurBucket` call, a `checkEvent` and a second `fixCurBucket` call, the wall
clock reading 100 both times; the second call sets the cursor to slot 2. -/
theorem nth_fixCurBucket_sets_slot_n_witness :
    (progStart.fixSecStep = 0 ∧
      FixOk 0 ([Op.init 100 0 0 0 0, Op.fixCurBucket 100, Op.checkEvent] : List (Op Nat Nat Nat)) ∧
      fixCalls ([Op.init 100 0 0 0 0, Op.fixCurBucket 100, Op.checkEvent] : List (Op Nat Nat Nat))
        + 1 < 100 ∧
      100 < UINT32) ∧
    (runOps progStart
      ([Op.init 100 0 0 0 0, Op.fixCurBucket 100, Op.checkEvent] ++ [Op.fixCurBucket 100])).1.curBucket
      = bucketOf 2 :=
  ⟨⟨rfl, ⟨⟨by decide, by decide⟩, trivial⟩, by decide, by decide⟩,
    (nth_fixCurBucket_sets_slot_n progStart
      [Op.init 100 0 0 0 0, Op.fixCurBucket 100, Op.checkEvent] 100 rfl
      ⟨⟨by decide, by decide⟩, trivial⟩ (by decide) (by decide)).1⟩

/-- C9 (the code at a failing input).  The wheel is initialised at second 100;
between rounds of the sweeper, with the wall clock still at 100, an event with
expiry 103 and then one with expiry 102 are scheduled by `addEvent`: they land
in slots 1 and 2, where the cursor stands at the time.  The sweeper is delayed
by 5 seconds: every later round reads a wall clock of at least 105, which does
not go backwards.  Both expiries are at most 105.  No call is made before the
cursor comes back to slot 1; round 60 makes the call of the event of expiry
103, round 61 the call of the event of expiry 102.  So after no number of
rounds have both events been fired in ascending order of expiry. -/
theorem catch_up_fires_out_of_order :
    (∀ i, 100 + 5 ≤ catchUpClock i ∧ catchUpClock i ≤ catchUpClock (i + 1)) ∧
    (runOps progStart catchUpSetup).2 = [] ∧
    (runOps progStart catchUpSetup).1.secStep = 100 ∧
    (runOps progStart catchUpSetup).1.timerHead (bucketOf 1) = [mkEvent (some 1) 103 7 0] ∧
    (runOps progStart catchUpSetup).1.timerHead (bucketOf 2) = [mkEvent (some 1) 102 8 0] ∧
    (runTicks catchUpClock 59 (runOps progStart catchUpSetup).1).2 = [] ∧
    (runTicks catchUpClock 60 (runOps progStart catchUpSetup).1).2
      = [{ func := 1, owner := 7, arg := 0, event := mkEvent (some 1) 103 7 0 }] ∧
    (runTicks catchUpClock 61 (runOps progStart catchUpSetup).1).2
      = [{ func := 1, owner := 7, arg := 0, event := mkEvent (some 1) 103 7 0 },
         { func := 1, owner := 8, arg := 0, event := mkEvent (some 1) 102 8 0 }] ∧
    ¬ ∃ n,
      ({ func := 1, owner := 7, arg := 0, event := mkEvent (some 1) 103 7 0 } : Call Nat Nat Nat)
        ∈ (runTicks catchUpClock n (runOps progStart catchUpSetup).1).2 ∧
      ({ func := 1, owner := 8, arg := 0, event := mkEvent (some 1) 102 8 0 } : Call Nat Nat Nat)
        ∈ (runTicks catchUpClock n (runOps progStart catchUpSetup).1).2 ∧
      (runTicks catchUpClock n (runOps progStart catchUpSetup).1).2.Pairwise
        (fun a b => a.event.expireTime ≤ b.event.expireTime) := by
  have h61 : (runTicks catchUpClock 61 (runOps progStart catchUpSetup).1).2
      = [{ func := 1, owner := 7, arg := 0, event := mkEvent (some 1) 103 7 0 },
         { func := 1, owner := 8, arg := 0, event := mkEvent (some 1) 102 8 0 }] := by
    set_option maxRecDepth 100000 in decide
  refine ⟨?_, by decide, by decide, by decide, by decide, ?_, ?_, h61, ?_⟩
  · intro i
    unfold catchUpClock
    omega
  · set_option maxRecDepth 100000 in decide
  · set_option maxRecDepth 100000 in decide
  · rintro ⟨n, hA, hB, hp⟩
    rcases Nat.le_total n 61 with hle | hge
    · obtain ⟨t, ht⟩ := runTicks_calls_prefix catchUpClock (runOps progStart catchUpSetup).1 n 61 hle
      rw [h61] at ht
      generalize (runTicks catchUpClock n (runOps progStart catchUpSetup).1).2 = l at hA hB hp ht
      match l, ht with
      | [], _ => simp at hA
      | [x], ht =>
        simp only [List.cons_append, List.nil_append, List.cons.injEq] at ht
        rw [ht.1] at hB
        revert hB
        decide
      | x :: y :: rest, ht =>
        simp only [List.cons_append, List.cons.injEq] at ht
        rw [ht.1, ht.2.1] at hp
        have h2 := (List.pairwise_cons.mp hp).1 _ (List.mem_cons_self _ _)
        revert h2
        decide
    · obtain ⟨t, ht⟩ := runTicks_calls_prefix catchUpClock (runOps progStart catchUpSetup).1 61 n hge
      rw [h61] at ht
      rw [← ht] at hp
      have h2 := (List.pairwise_cons.mp hp).1
        { func := 1, owner := 8, arg := 0, event := mkEvent (some 1) 102 8 0 }
        (List.mem_cons_self _ _)
      revert h2
      decide

end Claims

end Timer
